import Mathlib

/-!
# Verification of core algorithms of the `frog` radio-network simulator

Shallow embedding of the Rust sources of `frogcore` (the simulation kernel,
the physical-layer transmission model, the EM field, the event queue, the
point-sequence topology and two routing node models) as executable Lean
definitions over exact rationals, together with theorems checking the
natural-language specification against them.

Numeric quantities (`Time`, `Length`, dB-domain powers, frequencies) are thin
`f64` wrappers in the source (`units.rs`); they are modelled as `ℚ` here, so
every comparison and arithmetic operation mirrors the source expression
exactly, with real-number rounding out of scope.

The file is organised as definitions first, then theorems.
-/

namespace Frog

/-! ## Data model (`data_structs.rs`, `node.rs`) -/

/-- Carrier band of a transmission (`CarrierBand` in
`frogcore/src/simulation/data_structs.rs`). -/
inductive CarrierBand where
  | b433 : CarrierBand
  | b868 : CarrierBand
deriving DecidableEq, Repr

/-- The radio settings of a node (`NodeSettings` in
`frogcore/src/simulation/data_structs.rs`), restricted to the fields the
verified functions read.  Powers are dB-domain values (`Db<Power>` is a plain
`f64` holding the dB value). -/
structure NodeSettings where
  sf : ℤ
  bandwidth : ℚ
  coding_rate : ℤ
  use_power : ℚ
  carrier_band : CarrierBand
  reaction_time : ℚ
deriving DecidableEq, Repr

instance : Inhabited NodeSettings :=
  ⟨{ sf := 7, bandwidth := 1, coding_rate := 4, use_power := 0,
     carrier_band := CarrierBand.b868, reaction_time := 0 }⟩

/-- Destination of a packet (`Destination` in `frogcore/src/node.rs`). -/
inductive Destination where
  | broadcast : Destination
  | node : ℕ → Destination
deriving DecidableEq, Repr

/-- `Destination::is_to_node`: false for broadcasts, otherwise whether the
destination is the provided node id. -/
def Destination.is_to_node : Destination → ℕ → Bool
  | Destination.broadcast, _ => false
  | Destination.node id, node_id => id = node_id

/-- `Destination::is_broadcast`. -/
def Destination.is_broadcast : Destination → Bool
  | Destination.broadcast => true
  | Destination.node _ => false

/-- `BasicHeader` in `frogcore/src/node.rs`. -/
structure BasicHeader where
  dest : Destination
  sender : ℕ
  packet_id : ℕ
deriving DecidableEq, Repr

/-- `MeshtasticHeader` in `frogcore/src/node.rs`. -/
structure MeshtasticHeader where
  dest : Destination
  sender : ℕ
  packet_id : ℕ
  hop_limit : ℤ
  hop_start : ℤ
  want_ack : Bool
deriving DecidableEq, Repr

/-- `Header` in `frogcore/src/node.rs`. -/
inductive Header where
  | basic : BasicHeader → Header
  | meshtastic : MeshtasticHeader → Header
deriving DecidableEq, Repr

/-- `Header::size`: constant 16 bytes on air. -/
def Header.size : Header → ℤ := fun _ => 16

/-- `RoutingStatus` in `frogcore/src/node.rs`. -/
inductive RoutingStatus where
  | notError : RoutingStatus
  | maxRetransmit : RoutingStatus
deriving DecidableEq, Repr

/-- `GlobalPacketId` in `frogcore/src/node.rs`. -/
structure GlobalPacketId where
  node_id : ℕ
  packet_id : ℕ
deriving DecidableEq, Repr

/-- `CustomContent` in `frogcore/src/node.rs`. -/
inductive CustomContent where
  | routingMessage : RoutingStatus → ℕ → CustomContent
  | globalAck : GlobalPacketId → CustomContent
deriving DecidableEq, Repr

/-- `CustomContent::size`: 8 bytes for both variants. -/
def CustomContent.size : CustomContent → ℤ := fun _ => 8

/-- `MessageContent` in `frogcore/src/simulation.rs`. -/
inductive MessageContent where
  | generatedMessage : ℕ → MessageContent
  | nodeMessage : CustomContent → MessageContent
  | empty : MessageContent
deriving DecidableEq, Repr

/-- `Transmission` in `frogcore/src/simulation/data_structs.rs`: the on-air
record of a broadcast.  Times are in seconds, `power` is the dB-domain
emission power. -/
structure Transmission where
  id : ℕ
  transmitter_id : ℕ
  start_time : ℚ
  end_time : ℚ
  sf : ℤ
  power : ℚ
  carrier_band : CarrierBand
  bandwidth : ℚ
  header : Header
  message_content : MessageContent
deriving DecidableEq, Repr

instance : Inhabited Transmission :=
  ⟨{ id := 0, transmitter_id := 0, start_time := 0, end_time := 0, sf := 7,
     power := 0, carrier_band := CarrierBand.b868, bandwidth := 1,
     header := Header.basic ⟨Destination.broadcast, 0, 0⟩,
     message_content := MessageContent.empty }⟩

/-! ## Airtime (`lib.rs`) -/

/-- `calculate_air_time` from `frogcore/src/lib.rs`.  `payload_size` is the
size of header plus body in bytes; the result is the on-air time in seconds.
`HEAD_DISABLE = 0`, `PREAMBLE_LEN = 16.0` as in the source; `low_data_mode`
is the inlined condition `symbol_time > 16 ms`. -/
def calculate_air_time (payload_size : ℤ) (radio_setting : NodeSettings) : ℚ :=
  let coding_rate : ℚ := (radio_setting.coding_rate : ℚ)
  let sf := radio_setting.sf
  let symbol_time : ℚ := (2 : ℚ) ^ sf / radio_setting.bandwidth
  let preamble_time := (16 + 4.25) * symbol_time
  let probably_number_of_bits_before_coding : ℚ :=
    ((8 * payload_size - 4 * sf + 28 + 16 - 20 * 0 : ℤ) : ℚ)
  let adjusted_sf : ℚ := ((if symbol_time > 16 / 1000 then sf - 2 else sf : ℤ) : ℚ)
  let payload_symbols : ℚ :=
    8 + ((max (⌈probably_number_of_bits_before_coding * coding_rate / (4 * adjusted_sf)⌉) 0 : ℤ) : ℚ)
  let payload_time := payload_symbols * symbol_time
  preamble_time + payload_time

/-- The airtime formula exactly as the specification writes it:
`preamble_time + ceil( max(0, 8·payload + 16 + 28 − 4·sf − 20·H) · CR / (4·(sf − 2·L)) ) · Ts + 8·Ts`
with `Ts = 2^sf / bandwidth`, `L = 1` iff `Ts > 16 ms` else `0`, `H = 0`,
preamble length 16 and `preamble_time = (16 + 4.25)·Ts`. -/
def air_time_spec (payload : ℤ) (sf : ℤ) (bandwidth : ℚ) (cr : ℤ) : ℚ :=
  let ts : ℚ := (2 : ℚ) ^ sf / bandwidth
  let l : ℤ := if ts > 16 / 1000 then 1 else 0
  let preamble_time : ℚ := (16 + 4.25) * ts
  preamble_time +
    ((⌈(((max 0 (8 * payload + 16 + 28 - 4 * sf - 20 * 0) : ℤ) : ℚ) * (cr : ℚ)) /
        (4 * ((sf - 2 * l : ℤ) : ℚ))⌉ : ℤ) : ℚ) * ts +
    8 * ts

/-- The settings pinned by the specification's airtime expectation:
sf 11, bandwidth 250 kHz, coding rate 5. -/
def pinned_settings : NodeSettings :=
  { sf := 11, bandwidth := 250000, coding_rate := 5, use_power := 0,
    carrier_band := CarrierBand.b868, reaction_time := 0 }

/-! ## EM field order and insertion (`em.rs`) -/

/-- The EM-field order invariant: the list is sorted by `end_time`
ascending (`field[i].end_time ≤ field[j].end_time` for `i < j`). -/
def em_sorted (em : List Transmission) : Prop :=
  List.Pairwise (fun a b => a.end_time ≤ b.end_time) em

/-- The rear-to-front scan of `Simulation::insert_transmission`
(`frogcore/src/simulation/em.rs`) on the reversed (most-recent-first) field:
walking from the most recent transmission backwards, the new transmission is
placed directly in front (in reversed order) of the first existing
transmission whose `end_time` is strictly smaller, and at the very end (the
front of the original field) when no such transmission exists. -/
def insert_transmission_aux (t : Transmission) : List Transmission → List Transmission
  | [] => [t]
  | x :: rest =>
    if x.end_time < t.end_time then t :: x :: rest
    else x :: insert_transmission_aux t rest

/-- `Simulation::insert_transmission`: insert into the EM field based on
`end_time`, right after the last existing entry with a strictly smaller
`end_time` (position 0 if there is none). -/
def insert_transmission (em : List Transmission) (t : Transmission) : List Transmission :=
  (insert_transmission_aux t em.reverse).reverse

/-! ## Reception decision (`models.rs`) -/

/-- `snr_read_threshold` from `frogcore/src/simulation/models.rs`: minimum
SNR (dB) for successful demodulation at spreading factor `sf`. -/
def snr_read_threshold (sf : ℤ) : ℚ := (-2.5) * (sf : ℚ) + 10

/-- The 6×6 SIR threshold matrix from `PairWiseCaptureEffect::reception_at`
(Croce et al. 2018), rows indexed by the target sf − 7, columns by the
interferer sf − 7. -/
def SIR_THRESHOLDS : List (List ℚ) :=
  [[1, -8, -9, -9, -9, -9],
   [-11, 1, -11, -12, -13, -13],
   [-15, -13, 1, -13, -14, -15],
   [-19, -18, -17, 1, -17, -18],
   [-22, -22, -21, -20, 1, -20],
   [-25, -25, -25, -24, -23, 1]]

/-- `SIR_THRESHOLDS[(target.sf - 7) as usize][(x.sf - 7) as usize]` as a total
lookup (the source indexing is only reached for sf in [7,12]). -/
def sir_threshold (target_sf x_sf : ℤ) : ℚ :=
  (SIR_THRESHOLDS.getD (target_sf - 7).toNat []).getD (x_sf - 7).toNat 0

/-- `TransmissionResult` in `frogcore/src/simulation/models.rs`. -/
inductive TransmissionResult where
  | success : ℚ → TransmissionResult
  | tooWeak : TransmissionResult
  | blocked : ℕ → TransmissionResult
deriving DecidableEq, Repr

/-- The interferer test from the `find` closure of
`PairWiseCaptureEffect::reception_at`: skip the target itself; a concurrent
own transmission always blocks; other carrier bands never block; otherwise
block when the signal-to-interference ratio is at most the matrix
threshold.  `power_at` stands for the memoised pairwise received power at the
receiving node (`PairWiseCaptureEffect::power_at`), a pure function of the
transmission by the caching invariant. -/
def blocker_check (power_at : Transmission → ℚ) (target_power : ℚ) (at_node : ℕ)
    (target : Transmission) (x : Transmission) : Bool :=
  if x.id = target.id then false
  else if x.transmitter_id = at_node then true
  else if x.carrier_band ≠ target.carrier_band then false
  else decide (target_power - power_at x ≤ sir_threshold target.sf x.sf)

/-- `PairWiseCaptureEffect::reception_at` from
`frogcore/src/simulation/models.rs`, with the memoised received power and the
noise power abstracted as the pure functions `power_at` and `noise_power`
(their values at the fixed receiving node). -/
def reception_at (power_at : Transmission → ℚ) (noise_power : ℚ → ℚ) (at_node : ℕ)
    (em_field : List Transmission) (target : Transmission) : TransmissionResult :=
  let target_power := power_at target
  let snr := target_power - noise_power target.bandwidth
  if snr < snr_read_threshold target.sf then TransmissionResult.tooWeak
  else
    match (em_field.reverse.takeWhile fun x => decide (target.start_time ≤ x.end_time)).find?
        (blocker_check power_at target_power at_node target) with
    | some x => TransmissionResult.blocked x.id
    | none => TransmissionResult.success (min (max snr (-15)) 20)

/-- The blocking condition as the specification words it: an interferer `Y`
distinct from the target that either was transmitted by the receiver itself,
or shares the target's carrier band and satisfies
`P_X − P_Y ≤ SIR_threshold[X.sf − 7][Y.sf − 7]`. -/
def spec_is_blocker (power_at : Transmission → ℚ) (at_node : ℕ)
    (target : Transmission) (x : Transmission) : Prop :=
  x.id ≠ target.id ∧
    (x.transmitter_id = at_node ∨
      (x.carrier_band = target.carrier_band ∧
        power_at target - power_at x ≤ sir_threshold target.sf x.sf))

instance (power_at : Transmission → ℚ) (at_node : ℕ) (target x : Transmission) :
    Decidable (spec_is_blocker power_at at_node target x) := by
  unfold spec_is_blocker
  infer_instance

/-- The reception decision as the specification words it: `TooWeak` exactly
when the SNR is below the read threshold; otherwise the first transmission
with `end_time ≥ target.start_time`, scanning from most recent backwards,
that satisfies `spec_is_blocker` yields `Blocked`; with no such interferer
the result is `Success` with the SNR clamped to [−15 dB, 20 dB]. -/
def reception_spec (power_at : Transmission → ℚ) (noise_power : ℚ → ℚ) (at_node : ℕ)
    (em_field : List Transmission) (target : Transmission) : TransmissionResult :=
  let snr := power_at target - noise_power target.bandwidth
  if snr < snr_read_threshold target.sf then TransmissionResult.tooWeak
  else
    match (em_field.reverse.filter fun x => decide (target.start_time ≤ x.end_time)).find?
        (fun x => decide (spec_is_blocker power_at at_node target x)) with
    | some y => TransmissionResult.blocked y.id
    | none => TransmissionResult.success (min (max snr (-15)) 20)

/-! ## Simulation kernel state and `SendMessage` dispatch
(`simulation.rs`, `em.rs`) -/

/-- `LogLevel` in `frogcore/src/simulation/data_structs.rs`. -/
inductive LogLevel where
  | error : LogLevel
  | info : LogLevel
  | debug : LogLevel
  | trace : LogLevel
deriving DecidableEq, Repr

/-- `LogSource` in `frogcore/src/simulation/data_structs.rs`. -/
inductive LogSource where
  | simulation : LogSource
  | node : ℕ → LogSource
deriving DecidableEq, Repr

/-- `LogContent` in `frogcore/src/simulation/data_structs.rs`. -/
inductive LogContent where
  | text : String → LogContent
  | transmissionSent : ℕ → ℕ → LogContent
  | transmissionReceived : ℕ → ℕ → LogContent
  | transmissionBlocked : ℕ → ℕ → ℕ → LogContent
deriving DecidableEq, Repr

/-- `LogItem` in `frogcore/src/simulation/data_structs.rs`. -/
structure LogItem where
  time : ℚ
  log_level : LogLevel
  source : LogSource
  content : LogContent
deriving DecidableEq, Repr

/-- `NodeThread` in `frogcore/src/node.rs`. -/
inductive NodeThread where
  | radioThread : NodeThread
  | routingThread : NodeThread
  | cacheThread : NodeThread
deriving DecidableEq, Repr

/-- `SimAction` in `frogcore/src/simulation/data_structs.rs`. -/
inductive SimAction where
  | generateMessage : ℕ → ℕ → SimAction
  | sendMessage : ℕ → Header → MessageContent → SimAction
  | recieveMessage : ℕ → ℕ → SimAction
  | maybeNotify : ℕ → NodeThread → SimAction
deriving DecidableEq, Repr

/-- `SimEvent` in `frogcore/src/simulation/data_structs.rs`: a timestamped
action.  Its `Ord` instance compares the negated times only, so the
`BinaryHeap` of events is a max-heap on negated time, i.e. a min-heap on
time. -/
structure SimEvent where
  time : ℚ
  action : SimAction
deriving DecidableEq, Repr

instance : Inhabited SimEvent := ⟨{ time := 0, action := SimAction.generateMessage 0 0 }⟩

/-- `NodeError` in `frogcore/src/simulation.rs`. -/
inductive NodeError where
  | radioBusyError : Header → MessageContent → NodeError
deriving DecidableEq, Repr

/-- `MessageInfo` in `frogcore/src/simulation/data_structs.rs`. -/
structure MessageInfo where
  size : ℤ
  targets : List ℕ
deriving DecidableEq, Repr

/-- The fields of `Simulation` (`frogcore/src/simulation.rs`) touched by
`try_broadcast`: clock, event queue (as its multiset of pending events), EM
field, next transmission id, logs, per-node settings, topology adjacency
(`graph.get_adj`) and the user-message registry. -/
structure SimState where
  sim_time : ℚ
  event_queue : List SimEvent
  em_field : List Transmission
  next_trans_id : ℕ
  logs : List LogItem
  node_settings : List NodeSettings
  adj : ℕ → List ℕ
  test_messages : List MessageInfo

/-- `Simulation::active_transmissions`: the reversed EM field up to the
first transmission with `end_time < sim_time` (all in-flight transmissions
when the field is end-time sorted). -/
def SimState.active_transmissions (s : SimState) : List Transmission :=
  s.em_field.reverse.takeWhile fun x => decide (s.sim_time ≤ x.end_time)

/-- `Simulation::is_transmitting`: whether the node owns an active
transmission.  The activity test is `end_time >= sim_time` — not strict. -/
def SimState.is_transmitting (s : SimState) (node_id : ℕ) : Bool :=
  ((s.active_transmissions).find? fun x => x.transmitter_id = node_id).isSome

/-- `Simulation::message_size`: body size in bytes of a message content
(user messages are looked up in the registry, node messages are 8 bytes,
empty is 0). -/
def SimState.message_size (s : SimState) (message_content : MessageContent) : ℤ :=
  match message_content with
  | MessageContent.generatedMessage id => (s.test_messages.getD id ⟨0, []⟩).size
  | MessageContent.nodeMessage custom_content => custom_content.size
  | MessageContent.empty => 0

/-- `Simulation::try_broadcast` (`frogcore/src/simulation/em.rs`): the
`SendMessage` dispatch.  If the sender is already transmitting, the kernel
hands a `RadioBusyError` to the node model (returned here as the error
component) and changes nothing.  Otherwise it allocates a fresh transmission
id, computes the end time from the airtime of body plus 16-byte header,
inserts the transmission into the EM field, pushes a `RecieveMessage` event
at the end time for every adjacent node and logs `TransmissionSent`. -/
def try_broadcast (s : SimState) (sender_id : ℕ) (header : Header)
    (message_content : MessageContent) : SimState × Option NodeError :=
  if s.is_transmitting sender_id then
    (s, some (NodeError.radioBusyError header message_content))
  else
    let transmission_id := s.next_trans_id
    let settings := s.node_settings.getD sender_id default
    let message_size := s.message_size message_content
    let end_time := s.sim_time + calculate_air_time (message_size + header.size) settings
    let transmission : Transmission :=
      { id := transmission_id, start_time := s.sim_time, end_time := end_time,
        sf := settings.sf, power := settings.use_power, bandwidth := settings.bandwidth,
        carrier_band := settings.carrier_band, transmitter_id := sender_id,
        header := header, message_content := message_content }
    ({ s with
        next_trans_id := s.next_trans_id + 1,
        em_field := insert_transmission s.em_field transmission,
        event_queue := s.event_queue ++
          (s.adj sender_id).map fun id =>
            { time := end_time, action := SimAction.recieveMessage id transmission_id },
        logs := s.logs ++
          [{ time := s.sim_time, log_level := LogLevel.info, source := LogSource.simulation,
             content := LogContent.transmissionSent sender_id transmission_id }] },
      none)

/-! ## Channel utilisation (`Context::observed_utalisation` in
`simulation.rs`) -/

/-- Truncation toward zero, as the `f64` remainder operator uses. -/
def rat_trunc (q : ℚ) : ℤ := if 0 ≤ q then ⌊q⌋ else ⌈q⌉

/-- Rust's `%` on `f64`: `a - b * trunc(a / b)`. -/
def rust_rem (a b : ℚ) : ℚ := a - b * (rat_trunc (a / b) : ℚ)

/-- The de-overlapping sweep of `observed_utalisation`: walk the detected
transmissions newest first; whenever one starts before the running
`end_clamp`, add its window-clamped duration, pull `end_clamp` down to its
start, and stop as soon as `end_clamp` drops below the window start. -/
def util_loop (start_clamp : ℚ) : List Transmission → ℚ → ℚ → ℚ
  | [], _, total => total
  | x :: rest, end_clamp, total =>
    if x.start_time < end_clamp then
      let total2 := total + (min x.end_time end_clamp - max x.start_time start_clamp)
      if x.start_time < start_clamp then total2
      else util_loop start_clamp rest x.start_time total2
    else util_loop start_clamp rest end_clamp total

/-- `Context::observed_utalisation` (`frogcore/src/simulation.rs`) with the
detection judgement abstracted as the predicate `detected`: look back over
`(6 − 1)·10 s + sim_time % 10 s`, sum the de-overlapped clamped durations of
detected transmissions whose `end_time` reaches back into the window, and
divide by the window length. -/
def observed_utalisation (detected : Transmission → Bool) (em_field : List Transmission)
    (sim_time : ℚ) : ℚ :=
  let full_periods : ℚ := (6 - 1 : ℚ)
  let util_period_length : ℚ := 10
  let look_back_time := full_periods * util_period_length + rust_rem sim_time util_period_length
  let limit_time := sim_time - look_back_time
  let observation_range :=
    (em_field.reverse.takeWhile fun x => decide (limit_time ≤ x.end_time)).filter detected
  util_loop limit_time observation_range sim_time 0 / look_back_time

/-! ## Node models: Meshtastic rebroadcast and ProbabilisticFlood reception
(`node/meshtastic.rs`, `node/probabilistic_flood.rs`) -/

/-- `StoredPacket<MeshtasticHeader>` in `frogcore/src/node.rs`. -/
structure MeshPacket where
  header : MeshtasticHeader
  message_content : MessageContent
  size : ℤ
  snr : Option ℚ
deriving DecidableEq, Repr

/-- `StoredPacket::global_id`. -/
def MeshPacket.global_id (p : MeshPacket) : GlobalPacketId :=
  ⟨p.header.sender, p.header.packet_id⟩

/-- `Meshtastic::base_send` (`frogcore/src/node/meshtastic.rs`): panics when
the destination is the sending node itself (modelled as `none`); makes
broadcasts non-ack; refreshes `hop_start` when we are the original sender;
then hands the packet to the radio interface (the returned packet is the one
queued for transmission). -/
def base_send (node_id : ℕ) (packet : MeshPacket) : Option MeshPacket :=
  if packet.header.dest.is_to_node node_id then none
  else
    let p1 :=
      if packet.header.dest.is_broadcast then
        { packet with header := { packet.header with want_ack := false } }
      else packet
    let p2 :=
      if p1.header.sender = node_id then
        { p1 with header := { p1.header with hop_start := p1.header.hop_limit } }
      else p1
    some p2

/-- `Meshtastic::perhaps_rebroadcast`: when the packet is not addressed to
us, not from us, and has `hop_limit > 0`, decrement the hop limit and send
the copy via `base_send`; otherwise do nothing.  The result is the packet
queued on the radio interface, if any. -/
def perhaps_rebroadcast (node_id : ℕ) (packet : MeshPacket) : Option MeshPacket :=
  let to_us := packet.header.dest.is_to_node node_id
  let from_us := decide (packet.header.sender = node_id)
  if !to_us && !from_us && decide (0 < packet.header.hop_limit) then
    base_send node_id
      { packet with header := { packet.header with hop_limit := packet.header.hop_limit - 1 } }
  else none

/-- `ProbabilisticFlood::receive_message`
(`frogcore/src/node/probabilistic_flood.rs`): drop duplicates (by global
id); otherwise, when the packet is not addressed to this node, draw
`drop_packet` (the rng sample when at least `MIN_HOPS = 2` hops were used,
else 0) and, when it is below `REBROADCAST_PROB = 0.65`, queue a rebroadcast
copy with `hop_limit` decremented; finally record the id as seen.  Returns
the new seen set and the queued rebroadcast, if any. -/
def prob_flood_receive (seen : List GlobalPacketId) (node_id : ℕ)
    (header : MeshtasticHeader) (message_content : MessageContent)
    (payload_size : ℤ) (snr : ℚ) (rng_draw : ℚ) :
    List GlobalPacketId × Option MeshPacket :=
  let packet : MeshPacket :=
    { header := header, message_content := message_content, size := payload_size,
      snr := some snr }
  let key := packet.global_id
  if key ∈ seen then (seen, none)
  else
    let sent :=
      if !packet.header.dest.is_to_node node_id then
        let drop_packet : ℚ :=
          if packet.header.hop_start - packet.header.hop_limit ≥ 2 then rng_draw else 0
        if drop_packet < 65 / 100 then
          some { packet with header := { packet.header with hop_limit := packet.header.hop_limit - 1 } }
        else none
      else none
    (key :: seen, sent)

/-- The header of the C7 counterexample packet: a broadcast from node 1 with
`hop_limit = 0` (and `hop_start = 0`, so fewer than `MIN_HOPS` hops were
used and the rebroadcast draw is deterministic). -/
def c7_header : MeshtasticHeader :=
  { dest := Destination.broadcast, sender := 1, packet_id := 0, hop_limit := 0,
    hop_start := 0, want_ack := false }

/-! ## The event queue: Rust's `BinaryHeap<SimEvent>` (`simulation.rs`,
`data_structs.rs`, and `alloc::collections::binary_heap`) -/

/-- The heap-order comparison induced by `SimEvent`'s `Ord` instance
(`self.time.neg().total_cmp(&other.time.neg())`): `a ≤ b` in heap order iff
`b.time ≤ a.time`, so the max-heap keeps the smallest time on top. -/
def ev_le (a b : SimEvent) : Bool := decide (b.time ≤ a.time)

/-- Swap two positions of the backing vector. -/
def swap_list (l : List SimEvent) (i j : ℕ) : List SimEvent :=
  (l.set i (l.getD j default)).set j (l.getD i default)

/-- `BinaryHeap::sift_up` with lower bound `start = 0` (the only form the
queue uses), in swap form: while the element is strictly greater (in heap
order) than its parent, swap them; stop at the root or at an
equal-or-greater parent. -/
def sift_up (l : List SimEvent) (pos : ℕ) : List SimEvent :=
  if h : 0 < pos then
    if ev_le (l.getD pos default) (l.getD ((pos - 1) / 2) default) then l
    else sift_up (swap_list l pos ((pos - 1) / 2)) ((pos - 1) / 2)
  else l
termination_by pos
decreasing_by
  exact Nat.lt_of_le_of_lt (Nat.div_le_div_right (Nat.sub_le pos 1))
    (by omega)

/-- `BinaryHeap::push`: append at the end and sift up from there. -/
def heap_push (l : List SimEvent) (item : SimEvent) : List SimEvent :=
  sift_up (l ++ [item]) l.length

theorem swap_list_length (l : List SimEvent) (i j : ℕ) :
    (swap_list l i j).length = l.length := by
  unfold swap_list
  rw [List.length_set, List.length_set]

/-- `BinaryHeap::sift_down_to_bottom`: move the hole down along the
greater-child path (ties pick the right child) all the way to the bottom,
then sift the element back up. -/
def sift_down_to_bottom (l : List SimEvent) (pos : ℕ) : List SimEvent :=
  if hch : 2 * pos + 1 + 1 < l.length then
    let child :=
      if ev_le (l.getD (2 * pos + 1) default) (l.getD (2 * pos + 1 + 1) default) then
        2 * pos + 1 + 1
      else 2 * pos + 1
    sift_down_to_bottom (swap_list l pos child) child
  else if 2 * pos + 1 = l.length - 1 then
    sift_up (swap_list l pos (2 * pos + 1)) (2 * pos + 1)
  else sift_up l pos
termination_by l.length - pos
decreasing_by
  rw [swap_list_length]
  split
  · omega
  · omega

/-- `BinaryHeap::pop`: remove the last element; if the heap is still
non-empty, swap it with the root (the returned maximum) and sift it down to
the bottom and back up. -/
def heap_pop (l : List SimEvent) : Option (SimEvent × List SimEvent) :=
  match l with
  | [] => none
  | _ :: _ =>
    let item := l.getD (l.length - 1) default
    let rest := l.dropLast
    if rest.isEmpty then some (item, rest)
    else some (rest.getD 0 default, sift_down_to_bottom (rest.set 0 item) 0)

/-- The binary-heap shape invariant on the backing vector: every non-root
element's parent carries a time at most its own (min-heap on time, i.e.
max-heap in the `SimEvent` order). -/
def heap_inv (l : List SimEvent) : Prop :=
  ∀ i, 0 < i → i < l.length →
    (l.getD ((i - 1) / 2) default).time ≤ (l.getD i default).time

/-- An operation on the event queue. -/
inductive QueueOp where
  | push : SimEvent → QueueOp
  | pop : QueueOp
deriving DecidableEq, Repr

/-- Apply one queue operation (a pop on an empty queue is a no-op). -/
def queue_step (l : List SimEvent) (op : QueueOp) : List SimEvent :=
  match op with
  | QueueOp.push e => heap_push l e
  | QueueOp.pop =>
    match heap_pop l with
    | some (_, rest) => rest
    | none => l

/-- Run a sequence of queue operations from the empty queue, returning the
backing vector. -/
def exec_queue (ops : List QueueOp) : List SimEvent :=
  ops.foldl queue_step []

/-- The partial heap invariant needed while sifting up from `pos`: every
non-root element other than `pos` is at least its parent, and the children
of `pos` (if any) are at least the parent of `pos`. -/
def up_inv (l : List SimEvent) (pos : ℕ) : Prop :=
  (∀ i, 0 < i → i < l.length → i ≠ pos →
    (l.getD ((i - 1) / 2) default).time ≤ (l.getD i default).time) ∧
  (0 < pos → ∀ c, c < l.length → (c - 1) / 2 = pos →
    (l.getD ((pos - 1) / 2) default).time ≤ (l.getD c default).time)

/-- The partial heap invariant needed while the hole travels down from
`pos`: every edge not touching `pos` is ordered, and the children of `pos`
are at least the parent of `pos`. -/
def down_inv (l : List SimEvent) (pos : ℕ) : Prop :=
  (∀ i, 0 < i → i < l.length → i ≠ pos → (i - 1) / 2 ≠ pos →
    (l.getD ((i - 1) / 2) default).time ≤ (l.getD i default).time) ∧
  (0 < pos → ∀ c, c < l.length → (c - 1) / 2 = pos →
    (l.getD ((pos - 1) / 2) default).time ≤ (l.getD c default).time)

/-- C2 counterexample data: two events at time 5 (pushed first), one at
time 1. -/
def evX : SimEvent := ⟨5, SimAction.generateMessage 0 0⟩

/-- Second event at time 5, pushed after `evX`. -/
def evY : SimEvent := ⟨5, SimAction.generateMessage 0 1⟩

/-- An event at time 1, pushed last. -/
def evA : SimEvent := ⟨1, SimAction.generateMessage 0 2⟩

/-! ## Point-sequence topology (`node_location.rs`) -/

/-- A 2D point (`Point` in `frogcore/src/node_location.rs`); coordinates in
metres. -/
structure Point where
  x : ℚ
  y : ℚ
deriving DecidableEq, Repr

instance : Inhabited Point := ⟨⟨0, 0⟩⟩

/-- `Timepoint` in `frogcore/src/node_location.rs`: a time-stamped frame of
node positions (the vector index is the node id). -/
structure Timepoint where
  time : ℚ
  node_points : List Point
deriving DecidableEq, Repr

instance : Inhabited Timepoint := ⟨⟨0, []⟩⟩

/-- `Point::point_lerp`. -/
def point_lerp (a : Point) (lerp : ℚ) (b : Point) : Point :=
  ⟨a.x * (1 - lerp) + b.x * lerp, a.y * (1 - lerp) + b.y * lerp⟩

/-- The loop condition of `Points::move_counter`: keep advancing while the
cached frame starts after the query time (unless it is frame 0), or the next
frame still ends before the query time. -/
def move_counter_step (data : List Timepoint) (at_time : ℚ) (c : ℕ) : Bool :=
  (decide (c ≠ 0) && decide (at_time < (data.getD c default).time)) ||
    (match data[c + 1]? with
     | some x => decide (at_time > x.time)
     | none => false)

/-- `Points::move_counter`: advance the cached cursor cyclically until the
loop condition fails.  The Rust loop can run unboundedly, so the embedding
carries explicit fuel and returns `none` when it is exhausted (the theorems
show fuel `data.length` always suffices). -/
def move_counter (data : List Timepoint) (at_time : ℚ) : ℕ → ℕ → Option ℕ
  | 0, _ => none
  | fuel + 1, c =>
    if move_counter_step data at_time c then
      move_counter data at_time fuel ((c + 1) % data.length)
    else some c

/-- The value returned by `Points::distance_to` before the final `f64` square
root: either the clamped `MIN_DISTANCE` (0.05 m, returned when the two
interpolated positions coincide exactly) or the radicand
`diff_x² + diff_y²`. -/
inductive DistResult where
  | minDist : DistResult
  | sqrtOf : ℚ → DistResult
deriving DecidableEq, Repr

/-- The returned distance in metres (applying the square root the source
computes on `f64`). -/
noncomputable def DistResult.metres : DistResult → ℝ
  | DistResult.minDist => 5 / 100
  | DistResult.sqrtOf sq => Real.sqrt (sq : ℝ)

/-- `Points::distance_to` (`frogcore/src/node_location.rs`): move the cached
cursor, pick the enclosing frame pair (clamping before the first frame and
at or after the last), linearly interpolate both node positions, and return
the distance — `MIN_DISTANCE` when the positions coincide exactly.  The
cursor is threaded explicitly (`c0` in, second component out); `fuel` bounds
the `move_counter` loop. -/
def distance_to (data : List Timepoint) (at_time : ℚ) (from_id to_id : ℕ)
    (c0 fuel : ℕ) : Option (DistResult × ℕ) :=
  match move_counter data at_time fuel c0 with
  | none => none
  | some c =>
    let prev := data.getD c default
    let pair :=
      if c = data.length - 1 then
        (prev.node_points.getD from_id default, prev.node_points.getD to_id default)
      else if c = 0 ∧ at_time < (data.getD 0 default).time then
        (prev.node_points.getD from_id default, prev.node_points.getD to_id default)
      else
        let next := data.getD (c + 1) default
        let lerp := (at_time - prev.time) / (next.time - prev.time)
        (point_lerp (prev.node_points.getD from_id default) lerp
            (next.node_points.getD from_id default),
          point_lerp (prev.node_points.getD to_id default) lerp
            (next.node_points.getD to_id default))
    let diff_x := pair.1.x - pair.2.x
    let diff_y := pair.1.y - pair.2.y
    if diff_x = 0 ∧ diff_y = 0 then some (DistResult.minDist, c)
    else some (DistResult.sqrtOf (diff_x ^ 2 + diff_y ^ 2), c)

/-- The concrete frame list of the C8 counterexample: one frame with two
nodes 0.01 m apart. -/
def c8_points : List Timepoint := [⟨0, [⟨0, 0⟩, ⟨1 / 100, 0⟩]⟩]

/-! ## Concrete data used by witnesses -/

/-- A concrete transmission used by witnesses: transmitter 0, on air from
second 0 to second 2. -/
def ex_trans : Transmission :=
  { id := 2, transmitter_id := 0, start_time := 0, end_time := 2, sf := 7,
    power := 0, carrier_band := CarrierBand.b868, bandwidth := 250000,
    header := Header.basic ⟨Destination.broadcast, 0, 0⟩,
    message_content := MessageContent.empty }

/-- First concrete field entry: id 0, on air over [0, 1]. -/
def ex_t0 : Transmission := { ex_trans with id := 0, end_time := 1 }

/-- Second concrete field entry: id 1, transmitter 0, on air over [1, 3]. -/
def ex_t1 : Transmission := { ex_trans with id := 1, start_time := 1, end_time := 3 }

/-- A concrete two-element EM field sorted by end time (ends 1 and 3). -/
def ex_field : List Transmission := [ex_t0, ex_t1]

/-- A concrete kernel state at time 3 (the exact end time of `ex_t1`). -/
def ex_state : SimState :=
  { sim_time := 3, event_queue := [], em_field := ex_field, next_trans_id := 2,
    logs := [], node_settings := [pinned_settings], adj := fun _ => [1],
    test_messages := [] }

/-- A trivial received-power assignment used by witnesses. -/
def ex_power : Transmission → ℚ := fun _ => 0

/-- A trivial noise-power assignment used by witnesses. -/
def zero_noise : ℚ → ℚ := fun _ => 0

/-! ## Theorems -/

theorem ceil_max_comm (bits cr : ℤ) (asf : ℚ) (hcr : 0 < cr) (hasf : 0 < asf) :
    ((max (⌈(bits : ℚ) * (cr : ℚ) / (4 * asf)⌉) 0 : ℤ) : ℚ) =
      ((⌈((max 0 bits : ℤ) : ℚ) * (cr : ℚ) / (4 * asf)⌉ : ℤ) : ℚ) := by
  rcases le_or_lt 0 bits with hb | hb
  · rw [max_eq_right hb]
    have hx : (0 : ℚ) ≤ (bits : ℚ) * (cr : ℚ) / (4 * asf) := by
      apply div_nonneg
      · exact mul_nonneg (by exact_mod_cast hb) (by positivity)
      · positivity
    rw [max_eq_left (Int.ceil_nonneg hx)]
  · rw [max_eq_left (le_of_lt hb)]
    have hx : (bits : ℚ) * (cr : ℚ) / (4 * asf) ≤ 0 := by
      apply div_nonpos_of_nonpos_of_nonneg
      · apply mul_nonpos_of_nonpos_of_nonneg
        · exact_mod_cast le_of_lt hb
        · positivity
      · positivity
    rw [max_eq_right (Int.ceil_le.mpr (by exact_mod_cast hx))]
    norm_num

theorem air_time_eq_spec (payload : ℤ) (s : NodeSettings) (h7 : 7 ≤ s.sf)
    (hcr : 0 < s.coding_rate) :
    calculate_air_time payload s = air_time_spec payload s.sf s.bandwidth s.coding_rate := by
  unfold calculate_air_time air_time_spec
  dsimp only
  have hsf7 : (7 : ℚ) ≤ (s.sf : ℚ) := by exact_mod_cast h7
  have hbits : (8 * payload + 16 + 28 - 4 * s.sf - 20 * 0 : ℤ) =
      8 * payload - 4 * s.sf + 28 + 16 - 20 * 0 := by ring
  by_cases hld : (2 : ℚ) ^ s.sf / s.bandwidth > 16 / 1000
  · rw [if_pos hld, if_pos hld]
    have hasf : (0 : ℚ) < ((s.sf - 2 : ℤ) : ℚ) := by push_cast; linarith
    have key := ceil_max_comm (8 * payload - 4 * s.sf + 28 + 16 - 20 * 0)
      s.coding_rate ((s.sf - 2 : ℤ) : ℚ) hcr hasf
    rw [show (s.sf - 2 * 1 : ℤ) = s.sf - 2 by ring, hbits, ← key]
    ring
  · rw [if_neg hld, if_neg hld]
    have hasf : (0 : ℚ) < ((s.sf : ℤ) : ℚ) := by linarith
    have key := ceil_max_comm (8 * payload - 4 * s.sf + 28 + 16 - 20 * 0)
      s.coding_rate ((s.sf : ℤ) : ℚ) hcr hasf
    rw [show (s.sf - 2 * 0 : ℤ) = s.sf by ring, hbits, ← key]
    ring

theorem air_time_pinned_eval : calculate_air_time 16 pinned_settings = 354304 / 1000000 := by
  unfold calculate_air_time pinned_settings
  dsimp only
  have hpow : ((2 : ℚ) ^ (11 : ℤ)) = 2048 := by norm_num
  rw [hpow]
  have hcond : ¬ ((2048 : ℚ) / 250000 > 16 / 1000) := by norm_num
  rw [if_neg hcond]
  have hceil : (⌈((8 * 16 - 4 * 11 + 28 + 16 - 20 * 0 : ℤ) : ℚ) * ((5 : ℤ) : ℚ) / (4 * ((11 : ℤ) : ℚ))⌉ : ℤ) = 15 := by
    have : ((8 * 16 - 4 * 11 + 28 + 16 - 20 * 0 : ℤ) : ℚ) * ((5 : ℤ) : ℚ) / (4 * ((11 : ℤ) : ℚ)) = 160 / 11 := by
      norm_num
    rw [this, Int.ceil_eq_iff]
    norm_num
  norm_num at hceil ⊢
  rw [hceil]
  norm_num

/-- C5 (counterexample to the pinned value): at payload 16 bytes, sf 11,
bandwidth 250 kHz, coding rate 5, `calculate_air_time` returns exactly
0.354304 s, not 0.4633… s as the claim states. -/
theorem c5_pinned_value_counterexample :
    calculate_air_time 16 pinned_settings = 354304 / 1000000 ∧
      ¬ (4633 / 10000 ≤ calculate_air_time 16 pinned_settings ∧
          calculate_air_time 16 pinned_settings < 4634 / 10000) := by
  refine ⟨air_time_pinned_eval, ?_⟩
  rw [air_time_pinned_eval]
  norm_num

/-- C5 (amended): for every payload size, sf at least 7, bandwidth and
positive coding rate, `calculate_air_time` equals the LoRa formula of the
specification; in particular at payload 16, sf 11, bandwidth 250 kHz, coding
rate 5 it returns 0.354304 s. -/
theorem c5_air_time_formula (payload : ℤ) (s : NodeSettings) (h7 : 7 ≤ s.sf)
    (hcr : 0 < s.coding_rate) :
    calculate_air_time payload s = air_time_spec payload s.sf s.bandwidth s.coding_rate ∧
      calculate_air_time 16 pinned_settings = 354304 / 1000000 :=
  ⟨air_time_eq_spec payload s h7 hcr, air_time_pinned_eval⟩

/-- Witness for `c5_air_time_formula` at the pinned parameters. -/
theorem c5_air_time_formula_witness :
    7 ≤ pinned_settings.sf ∧ 0 < pinned_settings.coding_rate ∧
      (calculate_air_time 16 pinned_settings =
          air_time_spec 16 pinned_settings.sf pinned_settings.bandwidth pinned_settings.coding_rate ∧
        calculate_air_time 16 pinned_settings = 354304 / 1000000) :=
  ⟨by norm_num [pinned_settings], by norm_num [pinned_settings],
    c5_air_time_formula 16 pinned_settings (by norm_num [pinned_settings])
      (by norm_num [pinned_settings])⟩

theorem mem_insert_transmission_aux {t y : Transmission} {r : List Transmission}
    (h : y ∈ insert_transmission_aux t r) : y = t ∨ y ∈ r := by
  induction r with
  | nil =>
    rw [insert_transmission_aux, List.mem_singleton] at h
    exact Or.inl h
  | cons x rest ih =>
    rw [insert_transmission_aux] at h
    by_cases hx : x.end_time < t.end_time
    · rw [if_pos hx, List.mem_cons] at h
      rcases h with h | h
      · exact Or.inl h
      · exact Or.inr h
    · rw [if_neg hx, List.mem_cons] at h
      rcases h with h | h
      · exact Or.inr (List.mem_cons.mpr (Or.inl h))
      · rcases ih h with h | h
        · exact Or.inl h
        · exact Or.inr (List.mem_cons_of_mem x h)

theorem insert_transmission_aux_sorted {t : Transmission} {r : List Transmission}
    (h : List.Pairwise (fun a b => b.end_time ≤ a.end_time) r) :
    List.Pairwise (fun a b => b.end_time ≤ a.end_time) (insert_transmission_aux t r) := by
  induction r with
  | nil => simp [insert_transmission_aux]
  | cons x rest ih =>
    rw [List.pairwise_cons] at h
    rw [insert_transmission_aux]
    by_cases hx : x.end_time < t.end_time
    · rw [if_pos hx]
      refine List.pairwise_cons.mpr ⟨?_, List.pairwise_cons.mpr ⟨h.1, h.2⟩⟩
      intro y hy
      rcases List.mem_cons.mp hy with hy | hy
      · exact hy ▸ le_of_lt hx
      · exact le_trans (h.1 y hy) (le_of_lt hx)
    · rw [if_neg hx]
      refine List.pairwise_cons.mpr ⟨?_, ih h.2⟩
      intro y hy
      rcases mem_insert_transmission_aux hy with hy | hy
      · exact hy ▸ le_of_not_lt hx
      · exact h.1 y hy

theorem insert_transmission_aux_sublist (t : Transmission) (r : List Transmission) :
    r.Sublist (insert_transmission_aux t r) := by
  induction r with
  | nil => simp [insert_transmission_aux]
  | cons x rest ih =>
    rw [insert_transmission_aux]
    by_cases hx : x.end_time < t.end_time
    · rw [if_pos hx]
      exact List.sublist_cons_self t (x :: rest)
    · rw [if_neg hx]
      exact ih.cons₂ x

theorem insert_transmission_aux_length (t : Transmission) (r : List Transmission) :
    (insert_transmission_aux t r).length = r.length + 1 := by
  induction r with
  | nil => simp [insert_transmission_aux]
  | cons x rest ih =>
    rw [insert_transmission_aux]
    by_cases hx : x.end_time < t.end_time
    · rw [if_pos hx]; simp
    · rw [if_neg hx]; simp [ih]

/-- C3: inserting a new transmission into an end-time-sorted EM field at the
position computed by `Simulation::insert_transmission` keeps the field sorted
by `end_time` ascending, removes no existing entry (the old field is a
sublist of the new one) and adds exactly the one new entry. -/
theorem c3_insert_transmission_sorted (em : List Transmission) (t : Transmission)
    (h : em_sorted em) :
    em_sorted (insert_transmission em t) ∧ em.Sublist (insert_transmission em t) ∧
      (insert_transmission em t).length = em.length + 1 := by
  have hrev : List.Pairwise (fun a b => b.end_time ≤ a.end_time) em.reverse :=
    List.pairwise_reverse.mpr h
  refine ⟨?_, ?_, ?_⟩
  · have := insert_transmission_aux_sorted (t := t) hrev
    unfold insert_transmission em_sorted
    exact List.pairwise_reverse.mpr this
  · have := (insert_transmission_aux_sublist t em.reverse).reverse
    rwa [List.reverse_reverse] at this
  · unfold insert_transmission
    rw [List.length_reverse, insert_transmission_aux_length, List.length_reverse]

theorem ex_field_sorted : em_sorted ex_field := by
  unfold em_sorted ex_field
  refine List.pairwise_cons.mpr ⟨?_, List.pairwise_singleton _ _⟩
  intro y hy
  rw [List.mem_singleton] at hy
  subst hy
  norm_num [ex_t0, ex_t1, ex_trans]

/-- Witness for `c3_insert_transmission_sorted` at a concrete two-element
sorted field. -/
theorem c3_insert_transmission_sorted_witness :
    em_sorted ex_field ∧
      (em_sorted (insert_transmission ex_field ex_trans) ∧
        ex_field.Sublist (insert_transmission ex_field ex_trans) ∧
        (insert_transmission ex_field ex_trans).length = ex_field.length + 1) :=
  ⟨ex_field_sorted, c3_insert_transmission_sorted ex_field ex_trans ex_field_sorted⟩

theorem takeWhile_eq_filter_of_desc {l : List Transmission} {c : ℚ}
    (h : List.Pairwise (fun a b => b.end_time ≤ a.end_time) l) :
    (l.takeWhile fun x => decide (c ≤ x.end_time)) =
      (l.filter fun x => decide (c ≤ x.end_time)) := by
  induction l with
  | nil => rfl
  | cons x rest ih =>
    rw [List.pairwise_cons] at h
    rw [List.takeWhile_cons, List.filter_cons]
    by_cases hx : c ≤ x.end_time
    · rw [if_pos (by simpa using hx), if_pos (by simpa using hx), ih h.2]
    · rw [if_neg (by simpa using hx), if_neg (by simpa using hx)]
      symm
      rw [List.filter_eq_nil_iff]
      intro y hy
      simp only [decide_eq_true_eq]
      intro hcy
      exact hx (le_trans hcy (h.1 y hy))

theorem blocker_check_eq_spec (power_at : Transmission → ℚ) (at_node : ℕ)
    (target x : Transmission) :
    blocker_check power_at (power_at target) at_node target x =
      decide (spec_is_blocker power_at at_node target x) := by
  unfold blocker_check spec_is_blocker
  by_cases h1 : x.id = target.id
  · simp [h1]
  · by_cases h2 : x.transmitter_id = at_node
    · simp [h1, h2]
    · by_cases h3 : x.carrier_band = target.carrier_band
      · by_cases h4 : power_at target - power_at x ≤ sir_threshold target.sf x.sf
        · simp [h1, h2, h3, h4]
        · simp [h1, h2, h3, h4]
      · simp [h1, h2, h3]

/-- C1: on an end-time-sorted EM field, `reception_at` returns `TooWeak`
exactly when the SNR is below `−2.5·sf + 10` dB; otherwise it returns
`Blocked(Y.id)` for the first `Y` (scanning the field from most recent
backwards over transmissions with `end_time ≥ target.start_time`) satisfying
the interferer condition, and `Success` with the SNR clamped to
[−15 dB, 20 dB] when no such `Y` exists — i.e. it agrees with the
specification's decision procedure `reception_spec`. -/
theorem c1_reception_at_spec (power_at : Transmission → ℚ) (noise_power : ℚ → ℚ)
    (at_node : ℕ) (em_field : List Transmission) (target : Transmission)
    (h : em_sorted em_field) :
    reception_at power_at noise_power at_node em_field target =
      reception_spec power_at noise_power at_node em_field target := by
  unfold reception_at reception_spec
  dsimp only
  have hrev : List.Pairwise (fun a b => b.end_time ≤ a.end_time) em_field.reverse :=
    List.pairwise_reverse.mpr h
  rw [takeWhile_eq_filter_of_desc hrev]
  rw [show blocker_check power_at (power_at target) at_node target =
      fun x => decide (spec_is_blocker power_at at_node target x) from
    funext (blocker_check_eq_spec power_at at_node target)]

/-- Witness for `c1_reception_at_spec` at a concrete sorted field. -/
theorem c1_reception_at_spec_witness :
    em_sorted ex_field ∧
      reception_at ex_power zero_noise 3 ex_field ex_trans =
        reception_spec ex_power zero_noise 3 ex_field ex_trans :=
  ⟨ex_field_sorted,
    c1_reception_at_spec ex_power zero_noise 3 ex_field ex_trans ex_field_sorted⟩

/-- C4: when a `SendMessage` event is dispatched for a sender with an
in-flight transmission the kernel hands `RadioBusyError` to the node model
and leaves the whole state unchanged (no EM field entry, no scheduled event,
no log entry).  Otherwise it inserts one new transmission carrying a fresh
id into the EM field, schedules one `RecieveMessage` at its end time for
every adjacent node, and appends a `TransmissionSent` log entry. -/
theorem c4_send_message_dispatch (s : SimState) (sender_id : ℕ) (header : Header)
    (message_content : MessageContent)
    (hfresh : ∀ u ∈ s.em_field, u.id < s.next_trans_id) :
    (s.is_transmitting sender_id = true →
        try_broadcast s sender_id header message_content =
          (s, some (NodeError.radioBusyError header message_content))) ∧
    (s.is_transmitting sender_id = false →
        ∃ t : Transmission,
          t.id = s.next_trans_id ∧ (∀ u ∈ s.em_field, u.id ≠ t.id) ∧
            t.transmitter_id = sender_id ∧ t.start_time = s.sim_time ∧
            t.end_time = s.sim_time + calculate_air_time
              (s.message_size message_content + header.size)
              (s.node_settings.getD sender_id default) ∧
            (try_broadcast s sender_id header message_content).2 = none ∧
            (try_broadcast s sender_id header message_content).1.em_field =
              insert_transmission s.em_field t ∧
            (try_broadcast s sender_id header message_content).1.event_queue =
              s.event_queue ++ (s.adj sender_id).map
                (fun id => { time := t.end_time, action := SimAction.recieveMessage id t.id }) ∧
            (try_broadcast s sender_id header message_content).1.logs =
              s.logs ++ [⟨s.sim_time, LogLevel.info, LogSource.simulation,
                LogContent.transmissionSent sender_id t.id⟩] ∧
            (try_broadcast s sender_id header message_content).1.next_trans_id =
              s.next_trans_id + 1) := by
  constructor
  · intro hb
    simp [try_broadcast, hb]
  · intro hb
    refine ⟨Transmission.mk s.next_trans_id sender_id s.sim_time
        (s.sim_time + calculate_air_time (s.message_size message_content + header.size)
          (s.node_settings.getD sender_id default))
        (s.node_settings.getD sender_id default).sf
        (s.node_settings.getD sender_id default).use_power
        (s.node_settings.getD sender_id default).carrier_band
        (s.node_settings.getD sender_id default).bandwidth
        header message_content,
      rfl, ?_, rfl, rfl, rfl, ?_, ?_, ?_, ?_, ?_⟩
    · intro u hu
      exact Nat.ne_of_lt (hfresh u hu)
    · simp [try_broadcast, hb]
    · simp [try_broadcast, hb]
    · simp [try_broadcast, hb]
    · simp [try_broadcast, hb]
    · simp [try_broadcast, hb]

/-- Witness for `c4_send_message_dispatch` at the concrete state `ex_state`. -/
theorem c4_send_message_dispatch_witness :
    (∀ u ∈ ex_state.em_field, u.id < ex_state.next_trans_id) ∧
      ((ex_state.is_transmitting 0 = true →
          try_broadcast ex_state 0 ex_trans.header MessageContent.empty =
            (ex_state, some (NodeError.radioBusyError ex_trans.header MessageContent.empty))) ∧
        (ex_state.is_transmitting 0 = false →
          ∃ t : Transmission,
            t.id = ex_state.next_trans_id ∧ (∀ u ∈ ex_state.em_field, u.id ≠ t.id) ∧
              t.transmitter_id = 0 ∧ t.start_time = ex_state.sim_time ∧
              t.end_time = ex_state.sim_time + calculate_air_time
                (ex_state.message_size MessageContent.empty + ex_trans.header.size)
                (ex_state.node_settings.getD 0 default) ∧
              (try_broadcast ex_state 0 ex_trans.header MessageContent.empty).2 = none ∧
              (try_broadcast ex_state 0 ex_trans.header MessageContent.empty).1.em_field =
                insert_transmission ex_state.em_field t ∧
              (try_broadcast ex_state 0 ex_trans.header MessageContent.empty).1.event_queue =
                ex_state.event_queue ++ (ex_state.adj 0).map
                  (fun id => { time := t.end_time, action := SimAction.recieveMessage id t.id }) ∧
              (try_broadcast ex_state 0 ex_trans.header MessageContent.empty).1.logs =
                ex_state.logs ++ [⟨ex_state.sim_time, LogLevel.info, LogSource.simulation,
                  LogContent.transmissionSent 0 t.id⟩] ∧
              (try_broadcast ex_state 0 ex_trans.header MessageContent.empty).1.next_trans_id =
                ex_state.next_trans_id + 1)) :=
  ⟨by
    intro u hu
    simp only [ex_state, ex_field] at hu
    rcases List.mem_cons.mp hu with h | h
    · subst h; simp [ex_t0, ex_trans, ex_state]
    · rw [List.mem_singleton] at h; subst h; simp [ex_t1, ex_trans, ex_state],
   c4_send_message_dispatch ex_state 0 ex_trans.header MessageContent.empty
     (by
      intro u hu
      simp only [ex_state, ex_field] at hu
      rcases List.mem_cons.mp hu with h | h
      · subst h; simp [ex_t0, ex_trans, ex_state]
      · rw [List.mem_singleton] at h; subst h; simp [ex_t1, ex_trans, ex_state])⟩

theorem util_loop_bounds (sc S : ℚ) :
    ∀ (xs : List Transmission) (ec total : ℚ),
      (∀ x ∈ xs, sc ≤ x.end_time ∧ x.start_time < x.end_time) →
      sc ≤ ec → 0 ≤ total → total ≤ S - ec →
      0 ≤ util_loop sc xs ec total ∧ util_loop sc xs ec total ≤ S - sc := by
  intro xs
  induction xs with
  | nil =>
    intro ec total _ hscec h0 hle
    rw [util_loop]
    exact ⟨h0, by linarith⟩
  | cons x rest ih =>
    intro ec total hall hscec h0 hle
    have hx := hall x (List.mem_cons_self x rest)
    have hrest : ∀ y ∈ rest, sc ≤ y.end_time ∧ y.start_time < y.end_time :=
      fun y hy => hall y (List.mem_cons_of_mem x hy)
    rw [util_loop]
    by_cases hstart : x.start_time < ec
    · rw [if_pos hstart]
      dsimp only
      have hterm : 0 ≤ min x.end_time ec - max x.start_time sc := by
        have : max x.start_time sc ≤ min x.end_time ec := by
          rw [max_le_iff, le_min_iff, le_min_iff]
          exact ⟨⟨le_of_lt hx.2, le_of_lt hstart⟩, ⟨hx.1, hscec⟩⟩
        linarith
      have htot2 : total + (min x.end_time ec - max x.start_time sc) ≤
          S - max x.start_time sc := by
        have hmin : min x.end_time ec ≤ ec := min_le_right _ _
        linarith
      by_cases hbreak : x.start_time < sc
      · rw [if_pos hbreak]
        constructor
        · linarith
        · have hmax : max x.start_time sc = sc := max_eq_right (le_of_lt hbreak)
          rw [hmax] at htot2
          linarith
      · rw [if_neg hbreak]
        have hmax : max x.start_time sc = x.start_time :=
          max_eq_left (le_of_not_lt hbreak)
        refine ih x.start_time (total + (min x.end_time ec - max x.start_time sc))
          hrest (le_of_not_lt hbreak) (by linarith) ?_
        rw [hmax] at htot2
        linarith
    · rw [if_neg hstart]
      exact ih ec total hrest hscec h0 hle

theorem rust_rem_nonneg {a b : ℚ} (ha : 0 ≤ a) (hb : 0 < b) : 0 ≤ rust_rem a b := by
  unfold rust_rem rat_trunc
  have hq : 0 ≤ a / b := div_nonneg ha (le_of_lt hb)
  rw [if_pos hq]
  have hfl : (⌊a / b⌋ : ℚ) ≤ a / b := Int.floor_le _
  have : b * (⌊a / b⌋ : ℚ) ≤ b * (a / b) := by
    exact mul_le_mul_of_nonneg_left hfl (le_of_lt hb)
  rw [mul_div_cancel₀ a (ne_of_gt hb)] at this
  linarith

/-- C6: on any EM field whose transmissions all satisfy
`start_time < end_time`, and at any non-negative simulation time, the channel
utilisation computed by `observed_utalisation` lies in [0, 1.00001] — the
internal assertion of the source can never fail (the value is in fact at
most 1). -/
theorem c6_utilisation_in_range (detected : Transmission → Bool)
    (em_field : List Transmission) (sim_time : ℚ)
    (hwf : ∀ t ∈ em_field, t.start_time < t.end_time) (hst : 0 ≤ sim_time) :
    0 ≤ observed_utalisation detected em_field sim_time ∧
      observed_utalisation detected em_field sim_time ≤ 1.00001 := by
  unfold observed_utalisation
  dsimp only
  set lb := (6 - 1 : ℚ) * 10 + rust_rem sim_time 10 with hlb
  have hrem : 0 ≤ rust_rem sim_time 10 := rust_rem_nonneg hst (by norm_num)
  have hlbpos : 0 < lb := by rw [hlb]; linarith
  set sc := sim_time - lb with hsc
  have hall : ∀ x ∈ (em_field.reverse.takeWhile fun x =>
      decide (sc ≤ x.end_time)).filter detected,
      sc ≤ x.end_time ∧ x.start_time < x.end_time := by
    intro x hxmem
    have hxtw := (List.mem_filter.mp hxmem).1
    have hpred := List.mem_takeWhile_imp hxtw
    rw [decide_eq_true_eq] at hpred
    have hxem : x ∈ em_field := by
      have := (List.takeWhile_sublist (l := em_field.reverse)
        (fun x => decide (sc ≤ x.end_time))).mem hxtw
      exact List.mem_reverse.mp this
    exact ⟨hpred, hwf x hxem⟩
  have hbounds := util_loop_bounds sc sim_time
    ((em_field.reverse.takeWhile fun x => decide (sc ≤ x.end_time)).filter detected)
    sim_time 0 hall (by rw [hsc]; linarith) le_rfl (by norm_num)
  have hub : sim_time - sc = lb := by rw [hsc]; ring
  rw [hub] at hbounds
  constructor
  · exact div_nonneg hbounds.1 (le_of_lt hlbpos)
  · have h1 : util_loop sc ((em_field.reverse.takeWhile fun x =>
        decide (sc ≤ x.end_time)).filter detected) sim_time 0 / lb ≤ 1 :=
      (div_le_one hlbpos).mpr hbounds.2
    norm_num
    linarith

/-- Witness for `c6_utilisation_in_range` on the concrete field `ex_field`
at time 3. -/
theorem c6_utilisation_in_range_witness :
    (∀ t ∈ ex_field, t.start_time < t.end_time) ∧ (0 : ℚ) ≤ 3 ∧
      (0 ≤ observed_utalisation (fun _ => true) ex_field 3 ∧
        observed_utalisation (fun _ => true) ex_field 3 ≤ 1.00001) :=
  ⟨by
    intro t ht
    rcases List.mem_cons.mp ht with h | h
    · subst h; norm_num [ex_t0, ex_trans]
    · rw [List.mem_singleton] at h; subst h; norm_num [ex_t1, ex_trans],
   by norm_num,
   c6_utilisation_in_range (fun _ => true) ex_field 3
     (by
      intro t ht
      rcases List.mem_cons.mp ht with h | h
      · subst h; norm_num [ex_t0, ex_trans]
      · rw [List.mem_singleton] at h; subst h; norm_num [ex_t1, ex_trans])
     (by norm_num)⟩

/-- C9: a transmission whose `end_time` equals the current simulation time
still counts as in flight (`is_transmitting` uses `end_time >= sim_time`),
so a `SendMessage` dispatched for its transmitter at exactly that moment
raises `RadioBusyError` and starts no new transmission. -/
theorem c9_busy_at_exact_end_time (s : SimState) (sender_id : ℕ) (t : Transmission)
    (header : Header) (message_content : MessageContent)
    (hsorted : em_sorted s.em_field) (hmem : t ∈ s.em_field)
    (htr : t.transmitter_id = sender_id) (hend : t.end_time = s.sim_time) :
    s.is_transmitting sender_id = true ∧
      try_broadcast s sender_id header message_content =
        (s, some (NodeError.radioBusyError header message_content)) := by
  have hrev : List.Pairwise (fun a b => b.end_time ≤ a.end_time) s.em_field.reverse :=
    List.pairwise_reverse.mpr hsorted
  have hactive : t ∈ s.active_transmissions := by
    unfold SimState.active_transmissions
    rw [takeWhile_eq_filter_of_desc hrev, List.mem_filter]
    exact ⟨List.mem_reverse.mpr hmem, by simp [hend]⟩
  have hit : s.is_transmitting sender_id = true := by
    unfold SimState.is_transmitting
    rw [List.find?_isSome]
    exact ⟨t, hactive, by simp [htr]⟩
  exact ⟨hit, by simp [try_broadcast, hit]⟩

/-- Witness for `c9_busy_at_exact_end_time`: in `ex_state` the clock is 3 and
`ex_t1` (transmitter 0) ends exactly at 3, so node 0 is still busy. -/
theorem c9_busy_at_exact_end_time_witness :
    em_sorted ex_state.em_field ∧ ex_t1 ∈ ex_state.em_field ∧
      ex_t1.transmitter_id = 0 ∧ ex_t1.end_time = ex_state.sim_time ∧
      (ex_state.is_transmitting 0 = true ∧
        try_broadcast ex_state 0 ex_trans.header MessageContent.empty =
          (ex_state, some (NodeError.radioBusyError ex_trans.header MessageContent.empty))) :=
  ⟨ex_field_sorted, by simp [ex_state, ex_field], rfl, rfl,
    c9_busy_at_exact_end_time ex_state 0 ex_t1 ex_trans.header MessageContent.empty
      ex_field_sorted (by simp [ex_state, ex_field]) rfl rfl⟩

/-- C7 (counterexample): `ProbabilisticFlood::receive_message` rebroadcasts
a fresh broadcast packet whose `hop_limit` is 0 — the queued copy even
carries `hop_limit = −1` — because the model never checks `hop_limit > 0`. -/
theorem c7_prob_flood_hop_zero_counterexample :
    c7_header.hop_limit = 0 ∧
      ((prob_flood_receive [] 0 c7_header MessageContent.empty 0 0 0).2.map
        fun q => q.header.hop_limit) = some (-1) := by
  constructor
  · rfl
  · norm_num [prob_flood_receive, MeshPacket.global_id, c7_header, Destination.is_to_node]

/-- C7 (amended): in the Meshtastic model, `perhaps_rebroadcast` queues a
copy exactly when the packet is not addressed to the node, not from the
node, and `hop_limit > 0`, and the copy carries `hop_limit` decremented by
one.  `ProbabilisticFlood`, however, rebroadcasts every first-seen packet
not addressed to the node — regardless of `hop_limit` (decrementing it,
possibly below zero), subject only to the probability draw after
`MIN_HOPS = 2` hops. -/
theorem c7_rebroadcast_hop_limit (node_id : ℕ) (packet : MeshPacket)
    (seen : List GlobalPacketId) (me : ℕ) (h : MeshtasticHeader)
    (mc : MessageContent) (sz : ℤ) (snr draw : ℚ) :
    ((perhaps_rebroadcast node_id packet).map fun q => q.header.hop_limit) =
      (if packet.header.dest.is_to_node node_id then none
       else if packet.header.sender = node_id then none
       else if 0 < packet.header.hop_limit then some (packet.header.hop_limit - 1)
       else none) ∧
    ((prob_flood_receive seen me h mc sz snr draw).2.map fun q => q.header.hop_limit) =
      (if (⟨h.sender, h.packet_id⟩ : GlobalPacketId) ∈ seen then none
       else if h.dest.is_to_node me then none
       else if 2 ≤ h.hop_start - h.hop_limit then
         (if draw < 65 / 100 then some (h.hop_limit - 1) else none)
       else some (h.hop_limit - 1)) := by
  constructor
  · by_cases htu : packet.header.dest.is_to_node node_id
    · simp [perhaps_rebroadcast, htu]
    · by_cases hfu : packet.header.sender = node_id
      · simp [perhaps_rebroadcast, htu, hfu]
      · by_cases hhl : 0 < packet.header.hop_limit
        · by_cases hbc : packet.header.dest.is_broadcast
          · simp [perhaps_rebroadcast, base_send, htu, hfu, hhl, hbc]
          · simp [perhaps_rebroadcast, base_send, htu, hfu, hhl, hbc]
        · simp [perhaps_rebroadcast, htu, hfu, hhl]
  · by_cases hseen : (⟨h.sender, h.packet_id⟩ : GlobalPacketId) ∈ seen
    · simp [prob_flood_receive, MeshPacket.global_id, hseen]
    · by_cases hdest : h.dest.is_to_node me
      · simp [prob_flood_receive, MeshPacket.global_id, hseen, hdest]
      · by_cases hdiff : 2 ≤ h.hop_start - h.hop_limit
        · by_cases hdraw : draw < 65 / 100
          · simp [prob_flood_receive, MeshPacket.global_id, hseen, hdest,
              show h.hop_start - h.hop_limit ≥ 2 from hdiff, hdraw]
          · simp [prob_flood_receive, MeshPacket.global_id, hseen, hdest,
              show h.hop_start - h.hop_limit ≥ 2 from hdiff, hdraw]
        · simp [prob_flood_receive, MeshPacket.global_id, hseen, hdest, hdiff,
            show ¬ (h.hop_start - h.hop_limit ≥ 2) from hdiff]

/-- C8 (counterexample): two nodes 0.01 m apart — closer than the 0.05 m
minimum but not coincident — get their true distance 0.01 m from
`Points::distance_to`, below the claimed 0.05 m floor; only exactly
coincident positions are clamped. -/
theorem c8_min_distance_counterexample :
    distance_to c8_points 0 0 1 0 1 = some (DistResult.sqrtOf (1 / 10000), 0) ∧
      (DistResult.sqrtOf (1 / 10000)).metres < 5 / 100 := by
  constructor
  · norm_num [distance_to, move_counter, move_counter_step, c8_points, point_lerp]
  · simp only [DistResult.metres]
    rw [show ((1 / 10000 : ℚ) : ℝ) = (1 / 100 : ℝ) ^ 2 by norm_num]
    rw [Real.sqrt_sq (by norm_num)]
    norm_num

/-- C8 (amended): `Points::distance_to` never returns a non-positive
distance: exactly coincident interpolated positions are clamped up to
`MIN_DISTANCE` (0.05 m), and distinct positions yield their true Euclidean
distance, which is positive but can be smaller than 0.05 m. -/
theorem c8_distance_positive (data : List Timepoint) (at_time : ℚ)
    (from_id to_id c0 fuel : ℕ) (r : DistResult) (c1 : ℕ)
    (hres : distance_to data at_time from_id to_id c0 fuel = some (r, c1)) :
    0 < r.metres ∧ (r = DistResult.minDist → r.metres = 5 / 100) := by
  unfold distance_to at hres
  rcases hmc : move_counter data at_time fuel c0 with _ | c
  · rw [hmc] at hres
    exact absurd hres (by simp)
  · rw [hmc] at hres
    dsimp only at hres
    set pair :=
      (if c = data.length - 1 then
        ((data.getD c default).node_points.getD from_id default,
          (data.getD c default).node_points.getD to_id default)
      else if c = 0 ∧ at_time < (data.getD 0 default).time then
        ((data.getD c default).node_points.getD from_id default,
          (data.getD c default).node_points.getD to_id default)
      else
        (point_lerp ((data.getD c default).node_points.getD from_id default)
            ((at_time - (data.getD c default).time) /
              ((data.getD (c + 1) default).time - (data.getD c default).time))
            ((data.getD (c + 1) default).node_points.getD from_id default),
          point_lerp ((data.getD c default).node_points.getD to_id default)
            ((at_time - (data.getD c default).time) /
              ((data.getD (c + 1) default).time - (data.getD c default).time))
            ((data.getD (c + 1) default).node_points.getD to_id default))) with hpair
    by_cases hzero : pair.1.x - pair.2.x = 0 ∧ pair.1.y - pair.2.y = 0
    · rw [if_pos hzero] at hres
      have hr : r = DistResult.minDist := by
        have := (Option.some_inj.mp hres)
        exact (Prod.mk.injEq _ _ _ _ ▸ this).1.symm
      subst hr
      refine ⟨?_, fun _ => rfl⟩
      unfold DistResult.metres
      norm_num
    · rw [if_neg hzero] at hres
      have hr : r = DistResult.sqrtOf
          ((pair.1.x - pair.2.x) ^ 2 + (pair.1.y - pair.2.y) ^ 2) := by
        have := (Option.some_inj.mp hres)
        exact (Prod.mk.injEq _ _ _ _ ▸ this).1.symm
      subst hr
      have hpos : (0 : ℚ) < (pair.1.x - pair.2.x) ^ 2 + (pair.1.y - pair.2.y) ^ 2 := by
        rcases not_and_or.mp hzero with hx | hy
        · have h1 : 0 < (pair.1.x - pair.2.x) ^ 2 := by positivity
          have h2 : 0 ≤ (pair.1.y - pair.2.y) ^ 2 := sq_nonneg _
          linarith
        · have h1 : 0 < (pair.1.y - pair.2.y) ^ 2 := by positivity
          have h2 : 0 ≤ (pair.1.x - pair.2.x) ^ 2 := sq_nonneg _
          linarith
      refine ⟨?_, by intro hcontra; exact absurd hcontra (by simp)⟩
      unfold DistResult.metres
      apply Real.sqrt_pos.mpr
      exact_mod_cast hpos

/-- Witness for `c8_distance_positive` at the concrete counterexample
input. -/
theorem c8_distance_positive_witness :
    distance_to c8_points 0 0 1 0 1 = some (DistResult.sqrtOf (1 / 10000), 0) ∧
      (0 < (DistResult.sqrtOf (1 / 10000)).metres ∧
        (DistResult.sqrtOf (1 / 10000) = DistResult.minDist →
          (DistResult.sqrtOf (1 / 10000)).metres = 5 / 100)) :=
  ⟨by norm_num [distance_to, move_counter, move_counter_step, c8_points, point_lerp],
    c8_distance_positive c8_points 0 0 1 0 1 (DistResult.sqrtOf (1 / 10000)) 0
      (by norm_num [distance_to, move_counter, move_counter_step, c8_points, point_lerp])⟩

theorem getElem?_eq_getD {data : List Timepoint} {i : ℕ} (h : i < data.length) :
    data[i]? = some (data.getD i default) := by
  rw [List.getElem?_eq_getElem h, List.getD_eq_getElem data default h]

theorem move_counter_post {data : List Timepoint} {at_time : ℚ} {fuel c c1 : ℕ}
    (h : move_counter data at_time fuel c = some c1) :
    move_counter_step data at_time c1 = false ∧ (c < data.length → c1 < data.length) := by
  induction fuel generalizing c with
  | zero => exact absurd h (by simp [move_counter])
  | succ f ih =>
    rw [move_counter] at h
    by_cases hs : move_counter_step data at_time c
    · rw [if_pos hs] at h
      have hrec := ih h
      refine ⟨hrec.1, fun hc => hrec.2 (Nat.mod_lt _ (by omega))⟩
    · rw [if_neg hs] at h
      obtain rfl := Option.some_inj.mp h
      exact ⟨by simpa using hs, fun hc => hc⟩

theorem move_counter_idem {data : List Timepoint} {at_time : ℚ} {c1 : ℕ}
    (hstop : move_counter_step data at_time c1 = false) {fuel : ℕ} (hf : 0 < fuel) :
    move_counter data at_time fuel c1 = some c1 := by
  obtain ⟨f, rfl⟩ : ∃ f, fuel = f + 1 := ⟨fuel - 1, by omega⟩
  rw [move_counter, if_neg (by simp [hstop])]

theorem cyc_dist_zero {n c cs : ℕ} (hc : c < n) (hcs : cs < n)
    (h : (cs + n - c) % n = 0) : c = cs := by
  rcases Nat.dvd_of_mod_eq_zero h with ⟨k, hk⟩
  match k with
  | 0 => omega
  | 1 => omega
  | k + 2 =>
    have hexp : n * (k + 2) = n * k + 2 * n := by ring
    have hge : 0 ≤ n * k := Nat.zero_le _
    omega

theorem cyc_dist_step {n c cs : ℕ} (hc : c < n) (hcs : cs < n) (hne : c ≠ cs) :
    (cs + n - (c + 1) % n) % n + 1 = (cs + n - c) % n := by
  by_cases hcase : c + 1 < n
  · rw [Nat.mod_eq_of_lt hcase]
    rcases Nat.lt_or_ge c cs with hlt | hge
    · have h1 : cs + n - c = (cs - c) + n := by omega
      have h2 : cs + n - (c + 1) = (cs - c - 1) + n := by omega
      rw [h1, h2, Nat.add_mod_right, Nat.add_mod_right,
        Nat.mod_eq_of_lt (by omega), Nat.mod_eq_of_lt (by omega)]
      omega
    · have hgt : cs < c := by omega
      have h1 : cs + n - c < n := by omega
      have h2 : cs + n - (c + 1) < n := by omega
      rw [Nat.mod_eq_of_lt h1, Nat.mod_eq_of_lt h2]
      omega
  · have hc1 : c + 1 = n := by omega
    rw [hc1, Nat.mod_self]
    have h3 : cs + n - 0 = cs + n := by omega
    rw [h3, Nat.add_mod_right, Nat.mod_eq_of_lt hcs]
    have h4 : cs + n - c = cs + 1 := by omega
    rw [h4, Nat.mod_eq_of_lt (by omega)]

theorem exists_move_counter_stop (data : List Timepoint) (at_time : ℚ)
    (hne : data ≠ []) :
    ∃ cs, cs < data.length ∧ move_counter_step data at_time cs = false := by
  by_contra hcon
  push_neg at hcon
  have hall : ∀ cs < data.length, move_counter_step data at_time cs = true := by
    intro cs hcs
    cases hb : move_counter_step data at_time cs with
    | false => exact absurd hb (hcon cs hcs)
    | true => rfl
  have hlen : 0 < data.length := List.length_pos.mpr hne
  by_cases hone : data.length = 1
  · have h0 := hall 0 (by omega)
    rw [move_counter_step] at h0
    have hnone : data[(0 : ℕ) + 1]? = none := by
      rw [List.getElem?_eq_none]
      omega
    rw [hnone] at h0
    simp at h0
  · have hlen2 : 2 ≤ data.length := by omega
    have h0 := hall 0 (by omega)
    rw [move_counter_step] at h0
    rw [getElem?_eq_getD (by omega : (0 : ℕ) + 1 < data.length)] at h0
    simp only [ne_eq, decide_not, Bool.or_eq_true, Bool.and_eq_true,
      decide_eq_true_eq, Bool.not_eq_true] at h0
    have hT1 : at_time > (data.getD 1 default).time := by
      rcases h0 with ⟨hbad, _⟩ | h
      · simp at hbad
      · exact h
    have hlast := hall (data.length - 1) (by omega)
    rw [move_counter_step] at hlast
    have hnone : data[(data.length - 1) + 1]? = none := by
      rw [List.getElem?_eq_none]
      omega
    rw [hnone] at hlast
    simp only [ne_eq, decide_not, Bool.or_eq_true, Bool.and_eq_true,
      decide_eq_true_eq, Bool.not_eq_true] at hlast
    have hTlast : at_time < (data.getD (data.length - 1) default).time := by
      rcases hlast with ⟨_, h⟩ | h
      · exact h
      · exact absurd h (by simp)
    have hex : ∃ k, at_time < (data.getD k default).time ∧ 1 ≤ k :=
      ⟨data.length - 1, hTlast, by omega⟩
    obtain ⟨k0, hk0, hmin, hk0le⟩ :
        ∃ k0, (at_time < (data.getD k0 default).time ∧ 1 ≤ k0) ∧
          (∀ m < k0, ¬(at_time < (data.getD m default).time ∧ 1 ≤ m)) ∧
          k0 ≤ data.length - 1 :=
      ⟨Nat.find hex, Nat.find_spec hex, fun m hm => Nat.find_min hex hm,
        Nat.find_le ⟨hTlast, by omega⟩⟩
    have hk02 : 2 ≤ k0 := by
      rcases Nat.lt_or_ge k0 2 with hlt | hge
      · exfalso
        have h1 : 1 ≤ k0 := hk0.2
        have hk01 : k0 = 1 := by omega
        rw [hk01] at hk0
        exact absurd hk0.1 (by push_neg; exact le_of_lt hT1)
      · exact hge
    have hstepc := hall (k0 - 1) (by omega)
    rw [move_counter_step] at hstepc
    rw [getElem?_eq_getD (by omega : (k0 - 1) + 1 < data.length)] at hstepc
    simp only [ne_eq, decide_not, Bool.or_eq_true, Bool.and_eq_true,
      decide_eq_true_eq, Bool.not_eq_true] at hstepc
    have hk1 : (k0 - 1) + 1 = k0 := by omega
    rcases hstepc with ⟨_, hbad⟩ | hbad
    · have := hmin (k0 - 1) (by omega)
      push_neg at this
      have := this hbad
      omega
    · rw [hk1] at hbad
      exact absurd hk0.1 (by push_neg; exact le_of_lt hbad)

theorem move_counter_reaches (data : List Timepoint) (at_time : ℚ) (cs : ℕ)
    (hcs : cs < data.length) (hstop : move_counter_step data at_time cs = false) :
    ∀ (d c fuel : ℕ), c < data.length → (cs + data.length - c) % data.length ≤ d →
      d < fuel → ∃ c1, move_counter data at_time fuel c = some c1 := by
  intro d
  induction d with
  | zero =>
    intro c fuel hc hd hf
    have hceq : c = cs := cyc_dist_zero hc hcs (by omega)
    subst hceq
    exact ⟨c, move_counter_idem hstop (by omega)⟩
  | succ d ih =>
    intro c fuel hc hd hf
    obtain ⟨f, rfl⟩ : ∃ f, fuel = f + 1 := ⟨fuel - 1, by omega⟩
    rw [move_counter]
    by_cases hs : move_counter_step data at_time c
    · rw [if_pos hs]
      have hne : c ≠ cs := by
        intro hceq
        rw [hceq, hstop] at hs
        exact absurd hs (by simp)
      have hdist := cyc_dist_step hc hcs hne
      refine ih ((c + 1) % data.length) f (Nat.mod_lt _ (by omega)) (by omega) (by omega)
    · rw [if_neg hs]
      exact ⟨c, rfl⟩

theorem move_counter_total (data : List Timepoint) (at_time : ℚ) (c0 : ℕ)
    (hne : data ≠ []) (hc0 : c0 < data.length) :
    ∃ c1, move_counter data at_time data.length c0 = some c1 := by
  obtain ⟨cs, hcs, hstop⟩ := exists_move_counter_stop data at_time hne
  refine move_counter_reaches data at_time cs hcs hstop
    ((cs + data.length - c0) % data.length) c0 data.length hc0 le_rfl ?_
  exact Nat.mod_lt _ (by omega)

theorem distance_to_symm_at (data : List Timepoint) (at_time : ℚ) (a b c0 c1 : ℕ)
    (fuel fuel2 : ℕ) (hmc : move_counter data at_time fuel c0 = some c1)
    (hmc2 : move_counter data at_time fuel2 c1 = some c1) :
    ∃ r, distance_to data at_time a b c0 fuel = some (r, c1) ∧
      distance_to data at_time b a c1 fuel2 = some (r, c1) := by
  unfold distance_to
  rw [hmc, hmc2]
  dsimp only
  by_cases hbr1 : c1 = data.length - 1
  · rw [if_pos hbr1, if_pos hbr1]
    set pa := (data.getD c1 default).node_points.getD a default with hpa
    set pb := (data.getD c1 default).node_points.getD b default with hpb
    by_cases hz : pa.x - pb.x = 0 ∧ pa.y - pb.y = 0
    · rw [if_pos hz, if_pos (by constructor <;> [linarith [hz.1]; linarith [hz.2]])]
      exact ⟨DistResult.minDist, rfl, rfl⟩
    · rw [if_neg hz, if_neg (by
        intro hcon
        exact hz ⟨by linarith [hcon.1], by linarith [hcon.2]⟩)]
      refine ⟨DistResult.sqrtOf ((pa.x - pb.x) ^ 2 + (pa.y - pb.y) ^ 2), rfl, ?_⟩
      have heq : (pb.x - pa.x) ^ 2 + (pb.y - pa.y) ^ 2 =
          (pa.x - pb.x) ^ 2 + (pa.y - pb.y) ^ 2 := by ring
      rw [heq]
  · rw [if_neg hbr1, if_neg hbr1]
    by_cases hbr2 : c1 = 0 ∧ at_time < (data.getD 0 default).time
    · rw [if_pos hbr2, if_pos hbr2]
      set pa := (data.getD c1 default).node_points.getD a default with hpa
      set pb := (data.getD c1 default).node_points.getD b default with hpb
      by_cases hz : pa.x - pb.x = 0 ∧ pa.y - pb.y = 0
      · rw [if_pos hz, if_pos (by constructor <;> [linarith [hz.1]; linarith [hz.2]])]
        exact ⟨DistResult.minDist, rfl, rfl⟩
      · rw [if_neg hz, if_neg (by
          intro hcon
          exact hz ⟨by linarith [hcon.1], by linarith [hcon.2]⟩)]
        refine ⟨DistResult.sqrtOf ((pa.x - pb.x) ^ 2 + (pa.y - pb.y) ^ 2), rfl, ?_⟩
        have heq : (pb.x - pa.x) ^ 2 + (pb.y - pa.y) ^ 2 =
            (pa.x - pb.x) ^ 2 + (pa.y - pb.y) ^ 2 := by ring
        rw [heq]
    · rw [if_neg hbr2, if_neg hbr2]
      set lerp := (at_time - (data.getD c1 default).time) /
        ((data.getD (c1 + 1) default).time - (data.getD c1 default).time) with hlerp
      set pa := point_lerp ((data.getD c1 default).node_points.getD a default) lerp
        ((data.getD (c1 + 1) default).node_points.getD a default) with hpa
      set pb := point_lerp ((data.getD c1 default).node_points.getD b default) lerp
        ((data.getD (c1 + 1) default).node_points.getD b default) with hpb
      by_cases hz : pa.x - pb.x = 0 ∧ pa.y - pb.y = 0
      · rw [if_pos hz, if_pos (by constructor <;> [linarith [hz.1]; linarith [hz.2]])]
        exact ⟨DistResult.minDist, rfl, rfl⟩
      · rw [if_neg hz, if_neg (by
          intro hcon
          exact hz ⟨by linarith [hcon.1], by linarith [hcon.2]⟩)]
        refine ⟨DistResult.sqrtOf ((pa.x - pb.x) ^ 2 + (pa.y - pb.y) ^ 2), rfl, ?_⟩
        have heq : (pb.x - pa.x) ^ 2 + (pb.y - pa.y) ^ 2 =
            (pa.x - pb.x) ^ 2 + (pa.y - pb.y) ^ 2 := by ring
        rw [heq]

/-- C10: in the point-sequence topology, `distance_to` always returns `Some`
(with fuel `data.length` the cursor loop always stops), and distance is
symmetric: querying `(b, a)` right after `(a, b)` returns the same value and
leaves the cursor unchanged. -/
theorem c10_distance_to_symm (data : List Timepoint) (at_time : ℚ) (a b c0 : ℕ)
    (hne : data ≠ []) (hc0 : c0 < data.length) :
    ∃ r c1, distance_to data at_time a b c0 data.length = some (r, c1) ∧
      distance_to data at_time b a c1 data.length = some (r, c1) := by
  obtain ⟨c1, hmc⟩ := move_counter_total data at_time c0 hne hc0
  have hpost := move_counter_post hmc
  have hidem : move_counter data at_time data.length c1 = some c1 :=
    move_counter_idem hpost.1 (List.length_pos.mpr hne)
  obtain ⟨r, h1, h2⟩ :=
    distance_to_symm_at data at_time a b c0 c1 data.length data.length hmc hidem
  exact ⟨r, c1, h1, h2⟩

/-- Witness for `c10_distance_to_symm` at the concrete frame list of the C8
counterexample. -/
theorem c10_distance_to_symm_witness :
    c8_points ≠ [] ∧ 0 < c8_points.length ∧
      (∃ r c1, distance_to c8_points 0 0 1 0 c8_points.length = some (r, c1) ∧
        distance_to c8_points 0 1 0 c1 c8_points.length = some (r, c1)) :=
  ⟨by simp [c8_points], by simp [c8_points],
    c10_distance_to_symm c8_points 0 0 1 0 (by simp [c8_points]) (by simp [c8_points])⟩


theorem getD_set_self {l : List SimEvent} {i : ℕ} {v : SimEvent} (h : i < l.length) :
    (l.set i v).getD i default = v := by
  rw [List.getD_eq_getElem?_getD, List.getElem?_set, if_pos rfl, if_pos h]
  rfl

theorem getD_set_ne {l : List SimEvent} {i j : ℕ} {v : SimEvent} (h : i ≠ j) :
    (l.set i v).getD j default = l.getD j default := by
  rw [List.getD_eq_getElem?_getD, List.getElem?_set, if_neg h, ← List.getD_eq_getElem?_getD]

theorem getD_swap_fst {l : List SimEvent} {i j : ℕ} (hi : i < l.length) (hj : j < l.length) :
    (swap_list l i j).getD i default = l.getD j default := by
  unfold swap_list
  by_cases hij : i = j
  · subst hij
    exact getD_set_self (by rwa [List.length_set])
  · rw [getD_set_ne (Ne.symm hij)]
    exact getD_set_self hi

theorem getD_swap_snd {l : List SimEvent} {i j : ℕ} (hj : j < l.length) :
    (swap_list l i j).getD j default = l.getD i default := by
  unfold swap_list
  exact getD_set_self (by rwa [List.length_set])

theorem getD_swap_other {l : List SimEvent} {i j k : ℕ} (hki : k ≠ i) (hkj : k ≠ j) :
    (swap_list l i j).getD k default = l.getD k default := by
  unfold swap_list
  rw [getD_set_ne (Ne.symm hkj), getD_set_ne (Ne.symm hki)]

theorem getD_append_lt {l1 l2 : List SimEvent} {i : ℕ} (h : i < l1.length) :
    (l1 ++ l2).getD i default = l1.getD i default := by
  rw [List.getD_eq_getElem?_getD, List.getElem?_append, if_pos h,
    ← List.getD_eq_getElem?_getD]

theorem getD_dropLast {l : List SimEvent} {i : ℕ} (h : i < l.length - 1) :
    l.dropLast.getD i default = l.getD i default := by
  rw [List.getD_eq_getElem?_getD, List.getElem?_dropLast, if_pos h,
    ← List.getD_eq_getElem?_getD]

theorem heap_inv_root_le {l : List SimEvent} (hinv : heap_inv l) :
    ∀ i, i < l.length → (l.getD 0 default).time ≤ (l.getD i default).time := by
  intro i
  induction i using Nat.strong_induction_on with
  | _ i ih =>
    intro hi
    rcases Nat.eq_zero_or_pos i with rfl | hpos
    · exact le_refl _
    · exact le_trans (ih ((i - 1) / 2) (by omega) (by omega)) (hinv i hpos hi)

theorem sift_up_restores :
    ∀ (pos : ℕ) (l : List SimEvent), pos < l.length → up_inv l pos →
      heap_inv (sift_up l pos) := by
  intro pos
  induction pos using Nat.strong_induction_on with
  | _ pos ih =>
    intro l hpos hinv
    rw [sift_up]
    by_cases hp : 0 < pos
    · rw [dif_pos hp]
      have hparlt : (pos - 1) / 2 < pos := by omega
      have hparlen : (pos - 1) / 2 < l.length := by omega
      by_cases hcmp : ev_le (l.getD pos default) (l.getD ((pos - 1) / 2) default) = true
      · rw [if_pos hcmp]
        unfold ev_le at hcmp
        rw [decide_eq_true_eq] at hcmp
        intro i hi0 hilen
        by_cases hipos : i = pos
        · subst hipos
          exact hcmp
        · exact hinv.1 i hi0 hilen hipos
      · rw [if_neg hcmp]
        unfold ev_le at hcmp
        rw [decide_eq_true_eq] at hcmp
        push_neg at hcmp
        refine ih ((pos - 1) / 2) hparlt (swap_list l pos ((pos - 1) / 2))
          (by rw [swap_list_length]; omega) ⟨?_, ?_⟩
        · intro i hi0 hilen hipar
          rw [swap_list_length] at hilen
          by_cases hipos : i = pos
          · subst hipos
            rw [getD_swap_snd hparlen, getD_swap_fst hpos hparlen]
            exact le_of_lt hcmp
          · by_cases hichild : (i - 1) / 2 = pos
            · rw [show (i : ℕ) - 1 = i - 1 from rfl, hichild,
                getD_swap_fst hpos hparlen,
                getD_swap_other hipos (by omega : i ≠ (pos - 1) / 2)]
              exact hinv.2 hp i hilen hichild
            · by_cases hisib : (i - 1) / 2 = (pos - 1) / 2
              · rw [hisib, getD_swap_snd hparlen,
                  getD_swap_other hipos hipar]
                refine le_trans (le_of_lt hcmp) ?_
                have := hinv.1 i hi0 hilen hipos
                rwa [hisib] at this
              · rw [getD_swap_other hichild hisib,
                  getD_swap_other hipos hipar]
                exact hinv.1 i hi0 hilen hipos
        · intro hpp c hclen hcpar
          rw [swap_list_length] at hclen
          have hgp_ne_pos : ((pos - 1) / 2 - 1) / 2 ≠ pos := by omega
          have hgp_ne_par : ((pos - 1) / 2 - 1) / 2 ≠ (pos - 1) / 2 := by omega
          rw [getD_swap_other hgp_ne_pos hgp_ne_par]
          have hedge_par : (l.getD (((pos - 1) / 2 - 1) / 2) default).time ≤
              (l.getD ((pos - 1) / 2) default).time :=
            hinv.1 ((pos - 1) / 2) hpp hparlen (by omega)
          by_cases hcpos : c = pos
          · subst hcpos
            rw [getD_swap_fst hpos hparlen]
            exact hedge_par
          · have hcne : c ≠ (pos - 1) / 2 := by omega
            rw [getD_swap_other hcpos hcne]
            refine le_trans hedge_par ?_
            have := hinv.1 c (by omega) hclen hcpos
            rwa [hcpar] at this
    · rw [dif_neg hp]
      intro i hi0 hilen
      exact hinv.1 i hi0 hilen (by omega)

theorem heap_push_inv (l : List SimEvent) (e : SimEvent) (hinv : heap_inv l) :
    heap_inv (heap_push l e) := by
  unfold heap_push
  refine sift_up_restores l.length (l ++ [e]) (by simp) ⟨?_, ?_⟩
  · intro i hi0 hilen hine
    rw [List.length_append, List.length_singleton] at hilen
    have hi : i < l.length := by omega
    rw [getD_append_lt hi, getD_append_lt (by omega : (i - 1) / 2 < l.length)]
    exact hinv i hi0 hi
  · intro hl c hclen hc
    rw [List.length_append, List.length_singleton] at hclen
    omega

theorem down_inv_swap {l : List SimEvent} {pos ch : ℕ} (hpos : pos < l.length)
    (hch : ch = 2 * pos + 1 ∨ ch = 2 * pos + 2) (hchlen : ch < l.length)
    (hmin : ∀ o, (o = 2 * pos + 1 ∨ o = 2 * pos + 2) → o < l.length →
      (l.getD ch default).time ≤ (l.getD o default).time)
    (hinv : down_inv l pos) : down_inv (swap_list l pos ch) ch := by
  have hposch : pos < ch := by omega
  have hchpar : (ch - 1) / 2 = pos := by omega
  constructor
  · intro i hi0 hilen hich hipch
    rw [swap_list_length] at hilen
    by_cases hipos : i = pos
    · subst hipos
      rw [getD_swap_fst hpos hchlen,
        getD_swap_other (by omega : (i - 1) / 2 ≠ i) (by omega : (i - 1) / 2 ≠ ch)]
      exact hinv.2 hi0 ch hchlen hchpar
    · by_cases hipar : (i - 1) / 2 = pos
      · rw [hipar, getD_swap_fst hpos hchlen, getD_swap_other hipos hich]
        exact hmin i (by omega) hilen
      · rw [getD_swap_other hipar hipch, getD_swap_other hipos hich]
        exact hinv.1 i hi0 hilen hipos hipar
  · intro hch0 c hclen hcpar
    rw [swap_list_length] at hclen
    have hcbig : ch < c := by omega
    rw [hchpar, getD_swap_fst hpos hchlen,
      getD_swap_other (by omega : c ≠ pos) (by omega : c ≠ ch)]
    have := hinv.1 c (by omega) hclen (by omega) (by omega)
    rwa [hcpar] at this

theorem up_inv_of_down_single {l : List SimEvent} {pos : ℕ} (hpos : pos < l.length)
    (hb : 2 * pos + 1 = l.length - 1) (hinv : down_inv l pos) :
    up_inv (swap_list l pos (2 * pos + 1)) (2 * pos + 1) := by
  have hchlen : 2 * pos + 1 < l.length := by omega
  constructor
  · intro i hi0 hilen hich
    rw [swap_list_length] at hilen
    by_cases hipos : i = pos
    · subst hipos
      rw [getD_swap_fst hpos hchlen,
        getD_swap_other (by omega : (i - 1) / 2 ≠ i) (by omega : (i - 1) / 2 ≠ 2 * i + 1)]
      exact hinv.2 hi0 (2 * i + 1) hchlen (by omega)
    · by_cases hipar : (i - 1) / 2 = pos
      · omega
      · by_cases hipch : (i - 1) / 2 = 2 * pos + 1
        · omega
        · rw [getD_swap_other hipar hipch, getD_swap_other hipos hich]
          exact hinv.1 i hi0 hilen hipos hipar
  · intro hch0 c hclen hcpar
    rw [swap_list_length] at hclen
    omega

theorem up_inv_of_down_leaf {l : List SimEvent} {pos : ℕ}
    (hleaf : l.length ≤ 2 * pos + 1) (hinv : down_inv l pos) : up_inv l pos := by
  refine ⟨?_, hinv.2⟩
  intro i hi0 hilen hipos
  exact hinv.1 i hi0 hilen hipos (by omega)

theorem sift_down_restores :
    ∀ (n pos : ℕ) (l : List SimEvent), l.length - pos ≤ n → pos < l.length →
      down_inv l pos → heap_inv (sift_down_to_bottom l pos) := by
  intro n
  induction n with
  | zero =>
    intro pos l hn hpos _
    omega
  | succ n ih =>
    intro pos l hn hpos hinv
    rw [sift_down_to_bottom]
    by_cases hch : 2 * pos + 1 + 1 < l.length
    · rw [dif_pos hch]
      dsimp only
      by_cases hcmp : ev_le (l.getD (2 * pos + 1) default)
          (l.getD (2 * pos + 1 + 1) default) = true
      · rw [if_pos hcmp]
        unfold ev_le at hcmp
        rw [decide_eq_true_eq] at hcmp
        refine ih (2 * pos + 1 + 1) (swap_list l pos (2 * pos + 1 + 1))
          (by rw [swap_list_length]; omega) (by rw [swap_list_length]; omega)
          (down_inv_swap hpos (Or.inr rfl) (by omega) ?_ hinv)
        intro o ho holen
        rcases ho with rfl | rfl
        · exact hcmp
        · exact le_refl _
      · rw [if_neg hcmp]
        unfold ev_le at hcmp
        rw [decide_eq_true_eq] at hcmp
        push_neg at hcmp
        refine ih (2 * pos + 1) (swap_list l pos (2 * pos + 1))
          (by rw [swap_list_length]; omega) (by rw [swap_list_length]; omega)
          (down_inv_swap hpos (Or.inl rfl) (by omega) ?_ hinv)
        intro o ho holen
        rcases ho with rfl | rfl
        · exact le_refl _
        · exact le_of_lt hcmp
    · rw [dif_neg hch]
      by_cases hb : 2 * pos + 1 = l.length - 1
      · rw [if_pos hb]
        refine sift_up_restores (2 * pos + 1) (swap_list l pos (2 * pos + 1))
          (by rw [swap_list_length]; omega) (up_inv_of_down_single hpos hb hinv)
      · rw [if_neg hb]
        exact sift_up_restores pos l hpos (up_inv_of_down_leaf (by omega) hinv)

theorem heap_pop_inv {l : List SimEvent} (hinv : heap_inv l) {e : SimEvent}
    {rest : List SimEvent} (h : heap_pop l = some (e, rest)) : heap_inv rest := by
  match l with
  | [] => exact absurd h (by simp [heap_pop])
  | hd :: tl =>
    rw [heap_pop] at h
    by_cases hemp : (hd :: tl).dropLast.isEmpty = true
    · rw [if_pos hemp] at h
      have hrest : rest = (hd :: tl).dropLast := (Prod.mk.injEq _ _ _ _ ▸ Option.some_inj.mp h).2.symm
      rw [hrest, List.isEmpty_iff.mp hemp]
      intro i hi0 hilen
      simp at hilen
    · rw [if_neg hemp] at h
      have hrest : rest = sift_down_to_bottom
          ((hd :: tl).dropLast.set 0 ((hd :: tl).getD ((hd :: tl).length - 1) default)) 0 :=
        (Prod.mk.injEq _ _ _ _ ▸ Option.some_inj.mp h).2.symm
      have hlen1 : 0 < (hd :: tl).dropLast.length := by
        rcases List.isEmpty_iff.not.mp hemp |> List.length_pos.mpr with h'
        exact h'
      rw [hrest]
      refine sift_down_restores
        ((hd :: tl).dropLast.set 0 ((hd :: tl).getD ((hd :: tl).length - 1) default)).length
        0 _ le_rfl (by rw [List.length_set]; exact hlen1) ⟨?_, ?_⟩
      · intro i hi0 hilen hipos hipch
        rw [List.length_set, List.length_dropLast] at hilen
        rw [getD_set_ne (by omega : (0 : ℕ) ≠ i),
          getD_set_ne (by omega : (0 : ℕ) ≠ (i - 1) / 2),
          getD_dropLast (by omega), getD_dropLast (by omega)]
        exact hinv i hi0 (by simp at hilen ⊢; omega)
      · intro h0
        omega

theorem heap_pop_min {l : List SimEvent} (hinv : heap_inv l) {e : SimEvent}
    {rest : List SimEvent} (h : heap_pop l = some (e, rest)) :
    ∀ x ∈ l, e.time ≤ x.time := by
  have hroot : e = l.getD 0 default := by
    match l with
    | [] => exact absurd h (by simp [heap_pop])
    | hd :: tl =>
      rw [heap_pop] at h
      by_cases hemp : (hd :: tl).dropLast.isEmpty = true
      · rw [if_pos hemp] at h
        have he : e = (hd :: tl).getD ((hd :: tl).length - 1) default :=
          (Prod.mk.injEq _ _ _ _ ▸ Option.some_inj.mp h).1.symm
        have htl : tl = [] := by
          have := List.isEmpty_iff.mp hemp
          rcases tl with _ | ⟨a, tl2⟩
          · rfl
          · simp [List.dropLast] at this
        subst htl
        simpa using he
      · rw [if_neg hemp] at h
        have he : e = (hd :: tl).dropLast.getD 0 default :=
          (Prod.mk.injEq _ _ _ _ ▸ Option.some_inj.mp h).1.symm
        have hlen1 : 0 < (hd :: tl).dropLast.length := by
          exact List.length_pos.mpr (List.isEmpty_iff.not.mp hemp)
        rw [he, getD_dropLast (by simp at hlen1 ⊢; omega)]
  intro x hx
  obtain ⟨i, hilen, hieq⟩ := List.mem_iff_getElem.mp hx
  have hxi : x = l.getD i default := by
    rw [← hieq, List.getD_eq_getElem l default hilen]
  rw [hroot, hxi]
  exact heap_inv_root_le hinv i hilen

theorem queue_step_inv (l : List SimEvent) (op : QueueOp) (hinv : heap_inv l) :
    heap_inv (queue_step l op) := by
  match op with
  | QueueOp.push e => exact heap_push_inv l e hinv
  | QueueOp.pop =>
    rw [queue_step]
    rcases hp : heap_pop l with _ | pr
    · exact hinv
    · match pr with
      | (e, rest) => exact heap_pop_inv hinv hp

theorem exec_queue_inv (ops : List QueueOp) : heap_inv (exec_queue ops) := by
  unfold exec_queue
  have hgen : ∀ (l : List SimEvent), heap_inv l → heap_inv (List.foldl queue_step l ops) := by
    induction ops with
    | nil => intro l hl; exact hl
    | cons op rest ih =>
      intro l hl
      rw [List.foldl_cons]
      exact ih (queue_step l op) (queue_step_inv l op hl)
  refine hgen [] ?_
  intro i hi0 hilen
  simp at hilen

/-- C2 (amended): the event queue is Rust's `BinaryHeap` on negated time,
so after any sequence of pushes and pops from the empty queue a pop always
returns an event whose timestamp is at most that of every event in the
queue — events with strictly smaller timestamps always execute first.  Ties
at exactly equal timestamps, however, resolve by heap layout, not by push
(FIFO) order. -/
theorem c2_pop_earliest (ops : List QueueOp) (e : SimEvent) (rest : List SimEvent)
    (h : heap_pop (exec_queue ops) = some (e, rest)) :
    ∀ x ∈ exec_queue ops, e.time ≤ x.time :=
  heap_pop_min (exec_queue_inv ops) h

theorem exec_push_evA : exec_queue [QueueOp.push evA] = [evA] := by
  show heap_push [] evA = [evA]
  rw [heap_push, show (([] : List SimEvent) ++ [evA]) = [evA] from rfl,
    show ([] : List SimEvent).length = 0 from rfl, sift_up]
  norm_num

/-- Witness for `c2_pop_earliest` on the singleton queue holding `evA`. -/
theorem c2_pop_earliest_witness :
    heap_pop (exec_queue [QueueOp.push evA]) = some (evA, []) ∧
      ∀ x ∈ exec_queue [QueueOp.push evA], evA.time ≤ x.time :=
  ⟨by rw [exec_push_evA]; rfl,
    c2_pop_earliest [QueueOp.push evA] evA [] (by rw [exec_push_evA]; rfl)⟩

theorem push_evX : heap_push [] evX = [evX] := by
  rw [heap_push, show (([] : List SimEvent) ++ [evX]) = [evX] from rfl,
    show ([] : List SimEvent).length = 0 from rfl, sift_up]
  norm_num

theorem push_evY : heap_push [evX] evY = [evX, evY] := by
  rw [heap_push, show ([evX] ++ [evY]) = [evX, evY] from rfl,
    show [evX].length = 1 from rfl]
  rw [sift_up, dif_pos (by norm_num)]
  rw [if_pos (by norm_num [ev_le, evX, evY, List.getD])]

theorem push_evA : heap_push [evX, evY] evA = [evA, evY, evX] := by
  rw [heap_push, show ([evX, evY] ++ [evA]) = [evX, evY, evA] from rfl,
    show [evX, evY].length = 2 from rfl]
  rw [sift_up, dif_pos (by norm_num)]
  rw [if_neg (by norm_num [ev_le, evX, evA, List.getD])]
  rw [show ((2 : ℕ) - 1) / 2 = 0 from rfl]
  rw [show swap_list [evX, evY, evA] 2 0 = [evA, evY, evX] from rfl]
  rw [sift_up]
  norm_num

theorem pop_first : heap_pop [evA, evY, evX] = some (evA, [evY, evX]) := by
  show some (evA, sift_down_to_bottom [evX, evY] 0) = some (evA, [evY, evX])
  rw [sift_down_to_bottom, dif_neg (by norm_num), if_pos (by norm_num)]
  rw [show swap_list [evX, evY] 0 (2 * 0 + 1) = [evY, evX] from rfl]
  rw [sift_up, dif_pos (by norm_num)]
  rw [if_pos (by norm_num [ev_le, evX, evY, List.getD])]

theorem pop_second : heap_pop [evY, evX] = some (evY, [evX]) := by
  show some (evY, sift_down_to_bottom [evX] 0) = some (evY, [evX])
  rw [sift_down_to_bottom, dif_neg (by norm_num), if_neg (by norm_num)]
  rw [sift_up]
  norm_num

/-- C2 (counterexample to the FIFO tie-break): push `evX` (time 5), then
`evY` (time 5), then `evA` (time 1).  The heap pops `evA`, then `evY`, then
`evX`: of the two equal-time events, the one pushed second comes out first,
so insertion order does not break ties. -/
theorem c2_fifo_counterexample :
    evX.time = evY.time ∧
      exec_queue [QueueOp.push evX, QueueOp.push evY, QueueOp.push evA] = [evA, evY, evX] ∧
      heap_pop [evA, evY, evX] = some (evA, [evY, evX]) ∧
      heap_pop [evY, evX] = some (evY, [evX]) ∧
      heap_pop [evX] = some (evX, []) := by
  refine ⟨rfl, ?_, pop_first, pop_second, rfl⟩
  show heap_push (heap_push (heap_push [] evX) evY) evA = [evA, evY, evX]
  rw [push_evX, push_evY, push_evA]

end Frog
